import Mathlib

/-!
Verification of `drydantic` (src/src/drydantic/defaults_merge_mixin.py).

The development shallowly embeds the Python module:
* `PyVal` models the JSON-like dynamic values the merger and the schema
  patcher manipulate (Python `dict`s become ordered association lists,
  matching the insertion-order semantics of Python dictionaries).
* `mergeDefaults` embeds `DefaultsMergeMixin._merge_defaults`.
* `mergeDefaultsE` is the same function with every dynamically-typed
  operation modelled as fallible, to express the "never raises" policy.
* A heap-based model (`HNode`, `Heap`, `mergeDefaultsH`) embeds the same
  method with explicit allocation and in-place mutation, to express the
  frame/no-mutation requirements.
* `extract_defaults_fields` embeds `_extract_defaults_fields`,
  `get_inner_type_from_list_annotation` embeds
  `_get_inner_type_from_list_annotation`, and `custom_model_json_schema`
  embeds the schema-patching override installed by `__init_subclass__`.
-/

namespace Drydantic

/-- Dynamic (JSON-like) Python values.  Python `dict`s keep insertion
order, so they are embedded as ordered association lists; real Python
dictionaries never hold duplicate keys, and the operations below are
written so that they agree with Python on duplicate-free inputs. -/
inductive PyVal where
  | int (n : Int)
  | str (s : String)
  | bool (b : Bool)
  | pynone
  | dict (entries : List (String × PyVal))
  | lst (elems : List PyVal)

namespace PyVal

/-- Python `isinstance(v, dict)`. -/
def isDict : PyVal → Bool
  | dict _ => true
  | _ => false

/-- Python `isinstance(v, list)`. -/
def isList : PyVal → Bool
  | lst _ => true
  | _ => false

end PyVal

/-- `d[k]` lookup on an association list (first matching entry, as in a
Python dict, which holds each key at most once). -/
def dGet (es : List (String × PyVal)) (k : String) : Option PyVal :=
  (es.find? (fun e => e.1 = k)).map (·.2)

/-- Python `k in d`. -/
def dMem (es : List (String × PyVal)) (k : String) : Bool :=
  es.any (fun e => e.1 = k)

/-- Python `d[k] = v`: overwrite the entry in place when the key exists
(keeping its position), append a new entry otherwise. -/
def dSet (es : List (String × PyVal)) (k : String) (v : PyVal) :
    List (String × PyVal) :=
  if dMem es k then
    es.map (fun e => if e.1 = k then (k, v) else e)
  else
    es ++ [(k, v)]

/-- Python `d.pop(k, None)`: drop the entry for `k` (a no-op when the key
is absent). -/
def dPop (es : List (String × PyVal)) (k : String) : List (String × PyVal) :=
  es.filter (fun e => ¬ e.1 = k)

/-- Field access `v[k]` on a value known to be a mapping (`none` on
non-mappings, where the merger never reads fields). -/
def pyGet (v : PyVal) (k : String) : Option PyVal :=
  match v with
  | PyVal.dict es => dGet es k
  | _ => none

/-- Structural equality of two scalar values: the only depth at which
Python `==` is needed in the concrete scenarios below. -/
def atomBeq : PyVal → PyVal → Bool
  | PyVal.int a, PyVal.int b => a == b
  | PyVal.str a, PyVal.str b => a == b
  | PyVal.bool a, PyVal.bool b => a == b
  | PyVal.pynone, PyVal.pynone => true
  | _, _ => false

/-- Python `==` on dictionaries whose values are scalars:
order-insensitive comparison of the key sets with comparison of the
values stored at each key. -/
def dEqvB (a b : List (String × PyVal)) : Bool :=
  (a.all fun e => match dGet b e.1 with
    | some v => atomBeq e.2 v
    | none => false) &&
  (b.all fun e => match dGet a e.1 with
    | some v => atomBeq e.2 v
    | none => false)

/-- Python `d.update(other)`: existing keys keep their position and take
`other`'s value; keys new to `d` are appended in `other`'s order. -/
def dUpdate (es other : List (String × PyVal)) : List (String × PyVal) :=
  other.foldl (fun acc e => dSet acc e.1 e.2) es

/-- The field bindings a model type carries: `(field_name, marker)` pairs
produced by the annotation extractor.  `SupportsDefaults` is the marker
dataclass of the source; its single payload is `defaults_field`. -/
structure SupportsDefaults where
  defaults_field : String
deriving Repr, DecidableEq

/-- Body of the per-item loop of `_merge_defaults` (lines 117-125 of the
source): a mapping item is merged onto a deep copy of the defaults
mapping (deep copy is the identity on pure values), any other item is
appended unchanged. -/
def mergeItem (defaults_data : List (String × PyVal)) (item : PyVal) : PyVal :=
  match item with
  | PyVal.dict its => PyVal.dict (dUpdate defaults_data its)
  | _ => item

/-- Body of the per-binding loop of `_merge_defaults` (lines 107-130 of
the source): takes the working `result_data` entries and one
`(field_name, supports_defaults_info)` pair. -/
def mergeBinding (res : List (String × PyVal))
    (fb : String × SupportsDefaults) : List (String × PyVal) :=
  let field_name := fb.1
  let defaults_key := fb.2.defaults_field
  if dMem res field_name ∧ dMem res defaults_key then
    let res' :=
      match dGet res field_name, dGet res defaults_key with
      | some (PyVal.lst field_data), some (PyVal.dict defaults_data) =>
          -- merge defaults with each item in the list
          dSet res field_name (PyVal.lst (field_data.map (mergeItem defaults_data)))
      | _, _ => res
    -- result_data.pop(defaults_key, None)
    dPop res' defaults_key
  else
    res

/-- Value-level embedding of `DefaultsMergeMixin._merge_defaults`.
`defaults_fields` stands for `_extract_defaults_fields(cls)`. -/
def mergeDefaults (defaults_fields : List (String × SupportsDefaults))
    (data : PyVal) : PyVal :=
  match data with
  | PyVal.dict es =>
      if defaults_fields.isEmpty then data
      else PyVal.dict (defaults_fields.foldl mergeBinding es)
  | _ => data

/-! ### Exception-aware embedding of `_merge_defaults`

The same method once more, with every operation whose Python counterpart
can raise modelled in `Except`: `result_data[key]` raises `KeyError` on a
missing key, and `merged_item.update(item)` raises `TypeError` when its
argument is not a mapping.  All other operations of the method
(`isinstance`, `dict(data)`, iteration over a checked list,
`copy.deepcopy`, subscript assignment, `pop` with a default) are total. -/

/-- `d[k]`, raising `KeyError` when the key is absent. -/
def dGetE (es : List (String × PyVal)) (k : String) : Except String PyVal :=
  match dGet es k with
  | some v => Except.ok v
  | none => Except.error "KeyError"

/-- `d.update(other)`, raising `TypeError` when `other` is not a mapping. -/
def dUpdateE (es : List (String × PyVal)) (other : PyVal) :
    Except String (List (String × PyVal)) :=
  match other with
  | PyVal.dict os => Except.ok (dUpdate es os)
  | _ => Except.error "TypeError"

/-- The per-item loop, exception-aware. -/
def mergeItemE (defaults_data : List (String × PyVal)) (item : PyVal) :
    Except String PyVal :=
  match item with
  | PyVal.dict _ => (dUpdateE defaults_data item).map PyVal.dict
  | _ => Except.ok item

/-- The `merged_items` accumulation loop, exception-aware. -/
def mergeItemsE (defaults_data : List (String × PyVal)) :
    List PyVal → Except String (List PyVal)
  | [] => Except.ok []
  | item :: rest => do
      let m ← mergeItemE defaults_data item
      let ms ← mergeItemsE defaults_data rest
      pure (m :: ms)

/-- One binding step, exception-aware. -/
def mergeBindingE (res : List (String × PyVal))
    (fb : String × SupportsDefaults) :
    Except String (List (String × PyVal)) :=
  if dMem res fb.1 ∧ dMem res fb.2.defaults_field then do
    let field_data ← dGetE res fb.1
    let defaults_data ← dGetE res fb.2.defaults_field
    let res' ←
      match field_data, defaults_data with
      | PyVal.lst items, PyVal.dict dd => do
          let merged ← mergeItemsE dd items
          pure (dSet res fb.1 (PyVal.lst merged))
      | _, _ => pure res
    pure (dPop res' fb.2.defaults_field)
  else
    pure res

/-- The loop over all bindings, exception-aware. -/
def mergeBindingsE : List (String × SupportsDefaults) →
    List (String × PyVal) → Except String (List (String × PyVal))
  | [], res => Except.ok res
  | fb :: rest, res => do
      let res' ← mergeBindingE res fb
      mergeBindingsE rest res'

/-- Exception-aware embedding of `DefaultsMergeMixin._merge_defaults`. -/
def mergeDefaultsE (defaults_fields : List (String × SupportsDefaults))
    (data : PyVal) : Except String PyVal :=
  match data with
  | PyVal.dict es =>
      if defaults_fields.isEmpty then Except.ok data
      else do
        let res ← mergeBindingsE defaults_fields es
        pure (PyVal.dict res)
  | _ => Except.ok data

/-! ### Heap-level embedding of `_merge_defaults`

The same method a third time, now with Python's object identity and
in-place mutation made explicit, to state what the merger never mutates.
A `Heap` is the list of allocated objects, an address is an index into
it, and allocation appends.  Mappings and sequences store the addresses
of their parts; scalars are immutable.  `copy.deepcopy` is modelled
without its cycle/sharing memo (the records the merger receives are
trees), and shares immutable scalars exactly as Python does. -/

/-- One allocated Python object. -/
inductive HNode where
  | int (n : Int)
  | str (s : String)
  | bool (b : Bool)
  | pynone
  | dict (entries : List (String × Nat))
  | lst (elems : List Nat)

/-- The allocated objects; the object at address `a` is `h[a]?`. -/
abbrev Heap := List HNode

/-- Address-valued `d[k]`. -/
def aGet (es : List (String × Nat)) (k : String) : Option Nat :=
  (es.find? (fun e => e.1 = k)).map (·.2)

/-- Address-valued `k in d`. -/
def aMem (es : List (String × Nat)) (k : String) : Bool :=
  es.any (fun e => e.1 = k)

/-- Address-valued `d[k] = a`. -/
def aSet (es : List (String × Nat)) (k : String) (a : Nat) :
    List (String × Nat) :=
  if aMem es k then
    es.map (fun e => if e.1 = k then (k, a) else e)
  else
    es ++ [(k, a)]

/-- Address-valued `d.pop(k, None)`. -/
def aPop (es : List (String × Nat)) (k : String) : List (String × Nat) :=
  es.filter (fun e => ¬ e.1 = k)

/-- Address-valued `d.update(other)`: the updated entries point at
`other`'s value objects (references are shared, not copied). -/
def aUpdate (des its : List (String × Nat)) : List (String × Nat) :=
  its.foldl (fun acc e => aSet acc e.1 e.2) des

mutual
/-- `copy.deepcopy`: scalars are shared, mappings and sequences are
rebuilt at fresh addresses with deep-copied parts.  `fuel` bounds the
recursion depth (the heaps the merger runs on are trees, so any fuel
larger than the heap size succeeds); on exhaustion the result is `none`,
which the frame theorems treat as no result. -/
def deepcopy : Nat → Heap → Nat → Option (Heap × Nat)
  | 0, _, _ => none
  | fuel+1, h, a =>
    match h[a]? with
    | some (HNode.dict es) =>
        match dcEntries fuel h es with
        | some (h1, es') => some (h1 ++ [HNode.dict es'], h1.length)
        | none => none
    | some (HNode.lst xs) =>
        match dcList fuel h xs with
        | some (h1, xs') => some (h1 ++ [HNode.lst xs'], h1.length)
        | none => none
    | some _ => some (h, a)
    | none => none
termination_by structural fuel _ _ => fuel

/-- `deepcopy` of each value of a mapping's entries, left to right. -/
def dcEntries : Nat → Heap → List (String × Nat) →
    Option (Heap × List (String × Nat))
  | 0, _, _ => none
  | _+1, h, [] => some (h, [])
  | fuel+1, h, (k, a) :: rest =>
    match deepcopy fuel h a with
    | some (h1, a') =>
        match dcEntries fuel h1 rest with
        | some (h2, rest') => some (h2, (k, a') :: rest')
        | none => none
    | none => none
termination_by structural fuel _ _ => fuel

/-- `deepcopy` of each element of a sequence, left to right. -/
def dcList : Nat → Heap → List Nat → Option (Heap × List Nat)
  | 0, _, _ => none
  | _+1, h, [] => some (h, [])
  | fuel+1, h, a :: rest =>
    match deepcopy fuel h a with
    | some (h1, a') =>
        match dcList fuel h1 rest with
        | some (h2, rest') => some (h2, a' :: rest')
        | none => none
    | none => none
termination_by structural fuel _ _ => fuel
end

/-- The `merged_items` loop at heap level (`da` is the address of the
defaults mapping): a mapping item gets `merged_item =
copy.deepcopy(defaults_data)` followed by the in-place
`merged_item.update(item)` (entry addresses of the item are shared);
any other item is appended by reference. -/
def mergeItemsH (fuel : Nat) (da : Nat) :
    Heap → List Nat → Option (Heap × List Nat)
  | h, [] => some (h, [])
  | h, item :: rest =>
    match h[item]? with
    | some (HNode.dict _) =>
        match deepcopy fuel h da with
        | some (h1, m) =>
            match h1[m]?, h1[item]? with
            | some (HNode.dict ces), some (HNode.dict its) =>
                match mergeItemsH fuel da (h1.set m (HNode.dict (aUpdate ces its))) rest with
                | some (h3, ms) => some (h3, m :: ms)
                | none => none
            | _, _ => none
        | none => none
    | some _ =>
        match mergeItemsH fuel da h rest with
        | some (h3, ms) => some (h3, item :: ms)
        | none => none
    | none => none

/-- One binding step at heap level, mutating the result mapping at
address `r` in place: when both keys are present and the shapes match,
point the field entry at a freshly allocated merged list; in every
both-present case pop the defaults key. -/
def mergeBindingH (fuel : Nat) (h : Heap) (r : Nat)
    (fb : String × SupportsDefaults) : Option Heap :=
  match h[r]? with
  | some (HNode.dict res) =>
      if aMem res fb.1 ∧ aMem res fb.2.defaults_field then
        match aGet res fb.1, aGet res fb.2.defaults_field with
        | some fa, some da =>
            let afterMerge : Option Heap :=
              match h[fa]?, h[da]? with
              | some (HNode.lst items), some (HNode.dict _) =>
                  match mergeItemsH fuel da h items with
                  | some (h1, merged) =>
                      -- result_data[field_name] = merged_items
                      match (h1 ++ [HNode.lst merged])[r]? with
                      | some (HNode.dict res1) =>
                          some ((h1 ++ [HNode.lst merged]).set r
                            (HNode.dict (aSet res1 fb.1 h1.length)))
                      | _ => none
                  | none => none
              | _, _ => some h
            -- result_data.pop(defaults_key, None)
            match afterMerge with
            | some h2 =>
                match h2[r]? with
                | some (HNode.dict res2) =>
                    some (h2.set r (HNode.dict (aPop res2 fb.2.defaults_field)))
                | _ => none
            | none => none
        | _, _ => none
      else
        some h
  | _ => none

/-- The loop over all bindings at heap level. -/
def mergeBindingsH (fuel : Nat) (r : Nat) :
    List (String × SupportsDefaults) → Heap → Option Heap
  | [], h => some h
  | fb :: rest, h =>
      match mergeBindingH fuel h r fb with
      | some h' => mergeBindingsH fuel r rest h'
      | none => none

/-- Heap-level embedding of `DefaultsMergeMixin._merge_defaults`:
non-mapping data and marker-free models are returned as given
(`result_data = dict(data)` is only reached afterwards); otherwise a
fresh shallow copy of the record is allocated and mutated binding by
binding. -/
def mergeDefaultsH (defaults_fields : List (String × SupportsDefaults))
    (fuel : Nat) (h : Heap) (dataA : Nat) : Option (Heap × Nat) :=
  match h[dataA]? with
  | some (HNode.dict es) =>
      if defaults_fields.isEmpty then some (h, dataA)
      else
        -- result_data = dict(data): a fresh mapping sharing the values
        match mergeBindingsH fuel h.length defaults_fields
            (h ++ [HNode.dict es]) with
        | some h2 => some (h2, h.length)
        | none => none
  | some _ => some (h, dataA)
  | none => none

/-- A concrete six-object heap: the record
`{"inners": [{"a": 1}], "inners_defaults": {"b": 7}}` at address 5. -/
def exHeapC8 : Heap :=
  [HNode.dict [("b", 1)],
   HNode.int 7,
   HNode.lst [3],
   HNode.dict [("a", 4)],
   HNode.int 1,
   HNode.dict [("inners", 2), ("inners_defaults", 0)]]

/-- The heap produced by running the heap-level merger on `exHeapC8`:
the six caller objects, then the fresh result record, the fresh merged
item and the fresh merged list. -/
def exHeapC8' : Heap :=
  exHeapC8 ++
    [HNode.dict [("inners", 8)],
     HNode.dict [("b", 1), ("a", 4)],
     HNode.lst [7]]

/-! ### Annotation model: `_extract_defaults_fields` and
`_get_inner_type_from_list_annotation` -/

/-- A Python type that may appear as a list field's element type: its
`__name__`, and — when it has a `model_json_schema` attribute — the
schema document that method returns for the patcher's fixed arguments
(`none` models a type without the attribute). -/
structure TypeRef where
  name : String
  jsonSchema : Option PyVal

/-- One metadata entry of a `typing.Annotated` annotation. -/
inductive AnnMeta where
  | supports (info : SupportsDefaults)
  | otherMeta

/-- A field annotation as the two helpers inspect it:
`Annotated[base, m1, ...]` (`get_args` returns the base type followed by
the metadata entries, so `len(args) > 1` is `metas ≠ []`), `list[T]`, or
any other annotation. -/
inductive Ann where
  | annotated (base : Ann) (metas : List AnnMeta)
  | listOf (t : TypeRef)
  | otherAnn

/-- A model class as seen through `typing.get_type_hints(cls,
include_extras=True)`: `hints` is `none` when the call raises
(`NameError`/`AttributeError`, e.g. an unresolved forward reference),
otherwise the field/annotation pairs in declaration order. -/
structure ClsInfo where
  hints : Option (List (String × Ann))

/-- The `for metadata in args[1:]` loop with its `break`: the first
`SupportsDefaults` metadata entry, if any. -/
def firstSupports : List AnnMeta → Option SupportsDefaults
  | [] => none
  | AnnMeta.supports info :: _ => some info
  | AnnMeta.otherMeta :: rest => firstSupports rest

/-- The accumulation loop of `_extract_defaults_fields`. -/
def extractLoop : List (String × Ann) → List (String × SupportsDefaults)
  | [] => []
  | (field_name, annotation) :: rest =>
      match annotation with
      | Ann.annotated _ metas =>
          if metas.length > 0 then    -- len(args) > 1
            match firstSupports metas with
            | some info => (field_name, info) :: extractLoop rest
            | none => extractLoop rest
          else extractLoop rest
      | _ => extractLoop rest

/-- Embedding of `_extract_defaults_fields` (lines 39-59): the
`except (NameError, AttributeError)` branch yields `hints = {}`. -/
def extract_defaults_fields (cls : ClsInfo) : List (String × SupportsDefaults) :=
  match cls.hints with
  | some hints => extractLoop hints
  | none => extractLoop []

/-- Embedding of `_get_inner_type_from_list_annotation` (lines 62-87):
unwrap one `Annotated` layer (its args are never empty) and return the
element type of a `list[T]` annotation.  When `get_type_hints` cannot
resolve the hints the schema patcher never reaches this helper (the
extractor has already returned no bindings); `none` stands for every
fall-through `return None` and for the caught `TypeError`/`ValueError`. -/
def get_inner_type_from_list_annotation (cls : ClsInfo)
    (field_name : String) : Option TypeRef :=
  match cls.hints with
  | none => none
  | some hints =>
      match (hints.find? (fun e => e.1 = field_name)).map (·.2) with
      | some annotation =>
          let list_type :=
            match annotation with
            | Ann.annotated base _ => base    -- args[0]
            | _ => annotation
          match list_type with
          | Ann.listOf t => some t
          | _ => none
      | none => none

/-! ### The schema patcher installed by `__init_subclass__`

`custom_model_json_schema` receives the baseline schema the original
`model_json_schema` returned and patches it per binding.  Every
operation whose Python counterpart can raise on an unexpectedly shaped
document returns `none` (the Schema Patcher's only failure mode is a
programmer error surfacing as an exception). -/

/-- `v[k]` read: raises unless `v` is a mapping holding `k`. -/
def getK (v : PyVal) (k : String) : Option PyVal :=
  match v with
  | PyVal.dict es => dGet es k
  | _ => none

/-- `v[k] = x`: raises unless `v` is a mapping. -/
def setK (v : PyVal) (k : String) (x : PyVal) : Option PyVal :=
  match v with
  | PyVal.dict es => some (PyVal.dict (dSet es k x))
  | _ => none

/-- `v.pop(k, None)`: raises unless `v` is a mapping. -/
def popK (v : PyVal) (k : String) : Option PyVal :=
  match v with
  | PyVal.dict es => some (PyVal.dict (dPop es k))
  | _ => none

/-- `k in v` for the containers the patcher tests (mappings test their
keys, sequences their elements); other shapes raise. -/
def memK (v : PyVal) (k : String) : Option Bool :=
  match v with
  | PyVal.dict es => some (dMem es k)
  | PyVal.lst xs => some (xs.any (fun e =>
      match e with
      | PyVal.str s => s = k
      | _ => false))
  | _ => none

/-- `list.remove` of the first occurrence of the string `k`. -/
def removeFirstStr : List PyVal → String → List PyVal
  | [], _ => []
  | x :: rest, k =>
      match x with
      | PyVal.str s => if s = k then rest else x :: removeFirstStr rest k
      | _ => x :: removeFirstStr rest k

/-- `v.remove(k)`: raises unless `v` is a sequence containing `k` (the
source guards the call with `k in v`). -/
def listRemoveStr (v : PyVal) (k : String) : Option PyVal :=
  match v with
  | PyVal.lst xs =>
      if xs.any (fun e =>
          match e with
          | PyVal.str s => s = k
          | _ => false) then
        some (PyVal.lst (removeFirstStr xs k))
      else none
  | _ => none

/-- `str.title()` after `str.replace("_", " ")`: capitalise the first
letter of each alphabetic run, lowercase the rest. -/
def pyTitleAux : Bool → List Char → List Char
  | _, [] => []
  | prevAlpha, c :: rest =>
      (if c.isAlpha then (if prevAlpha then c.toLower else c.toUpper) else c)
        :: pyTitleAux c.isAlpha rest

/-- `s.replace("_", " ").title()`. -/
def pyTitle (s : String) : String :=
  String.mk (pyTitleAux false (s.replace "_" " ").data)

/-- The generic defaults-field fragment of lines 167-177. -/
def genericDefaultsProp (field_name defaults_key : String) : PyVal :=
  PyVal.dict
    [("anyOf", PyVal.lst
        [PyVal.dict [("type", PyVal.str "object"),
          ("additionalProperties", PyVal.bool true)],
          PyVal.dict [("type", PyVal.str "null")]]),
      ("default", PyVal.pynone),
      ("title", PyVal.str (pyTitle defaults_key)),
      ("description", PyVal.str
        ("Default values to merge with each item in " ++ field_name))]

/-- The description given to the registered partial variant. -/
def partialVariantDesc (name : String) : String :=
  "Partial " ++ name ++ " - fields will be merged with defaults. " ++
    "After merging, the result must satisfy the full " ++ name ++ " schema."

/-- The defaults-field fragment of lines 206-219, referencing the
partial variant. -/
def refDefaultsProp (field_name defaults_key name : String) : PyVal :=
  PyVal.dict
    [("anyOf", PyVal.lst
        [PyVal.dict [("$ref", PyVal.str ("#/$defs/Partial" ++ name))],
          PyVal.dict [("type", PyVal.str "null")]]),
      ("default", PyVal.pynone),
      ("description", PyVal.str
        ("Default values to merge with each item in " ++ field_name ++
          ". After merging with list items, results must satisfy the full "
          ++ name ++ " schema.")),
      ("title", PyVal.str (pyTitle defaults_key))]

/-- The merge note appended to the list field's description. -/
def mergeNote (defaults_key name : String) : String :=
  "Each item is merged with " ++ defaults_key ++ " before validation. " ++
    "Individual items can be partial, but after merging must satisfy " ++
    "the full " ++ name ++ " schema."

/-- The rewritten `items` fragment of lines 241-251. -/
def itemsFragment (name : String) : PyVal :=
  PyVal.dict
    [("anyOf", PyVal.lst
        [PyVal.dict [("$ref", PyVal.str ("#/$defs/Partial" ++ name))],
          PyVal.dict [("$ref", PyVal.str ("#/$defs/" ++ name))]]),
      ("description", PyVal.str
        ("Partial or complete " ++ name ++
          " item. Will be merged with defaults before validation."))]

/-- Python `str.strip()`: drop leading and trailing whitespace. -/
def pyStrip (s : String) : String :=
  String.mk (((s.data.dropWhile Char.isWhitespace).reverse.dropWhile
    Char.isWhitespace).reverse)

/-- `str(v)` as the f-string of line 235 renders the existing
description.  Every schema of interest stores descriptions as strings;
the rendering of containers is abridged and never reached by the
theorems below. -/
def pyStr (v : PyVal) : String :=
  match v with
  | PyVal.str s => s
  | PyVal.int n => toString n
  | PyVal.bool b => if b then "True" else "False"
  | PyVal.pynone => "None"
  | PyVal.dict _ => "{...}"
  | PyVal.lst _ => "[...]"

/-- One iteration of the patcher's `for field_name,
supports_defaults_info in defaults_fields` loop (lines 158-251). -/
def patchBinding (cls : ClsInfo) (schema0 : PyVal)
    (fb : String × SupportsDefaults) : Option PyVal := do
  let field_name := fb.1
  let defaults_key := fb.2.defaults_field
  let inner_type := get_inner_type_from_list_annotation cls field_name
  -- if "properties" not in schema: schema["properties"] = {}
  let s1 ← match schema0 with
    | PyVal.dict ses =>
        if dMem ses "properties" then some (PyVal.dict ses)
        else some (PyVal.dict (dSet ses "properties" (PyVal.dict [])))
    | _ => none
  -- if defaults_key not in schema["properties"]: add the generic fragment
  let props ← getK s1 "properties"
  let s2 ← match memK props defaults_key with
    | some true => some s1
    | some false =>
        match props with
        | PyVal.dict pes =>
            setK s1 "properties"
              (PyVal.dict (dSet pes defaults_key
                (genericDefaultsProp field_name defaults_key)))
        | _ => none
    | none => none
  -- if "required" in schema and defaults_key in schema["required"]:
  --   schema["required"].remove(defaults_key)
  let s3 ← match s2 with
    | PyVal.dict ses2 =>
        if dMem ses2 "required" then
          match dGet ses2 "required" with
          | some req =>
              match memK req defaults_key with
              | some true => do
                  let req' ← listRemoveStr req defaults_key
                  some (PyVal.dict (dSet ses2 "required" req'))
              | some false => some (PyVal.dict ses2)
              | none => none
          | none => none
        else some (PyVal.dict ses2)
    | _ => none
  -- if inner_type and hasattr(inner_type, "model_json_schema"):
  match inner_type with
  | some t =>
      match t.jsonSchema with
      | some inner_schema => do
          -- partial_schema = deepcopy(inner_schema) (identity on values);
          -- pop "required"; overwrite title and description
          let ps1 ← popK inner_schema "required"
          let ps2 ← setK ps1 "title" (PyVal.str ("Partial" ++ t.name))
          let ps3 ← setK ps2 "description"
            (PyVal.str (partialVariantDesc t.name))
          -- if "$defs" not in schema: schema["$defs"] = {}
          let s4 ← match s3 with
            | PyVal.dict ses3 =>
                if dMem ses3 "$defs" then some (PyVal.dict ses3)
                else some (PyVal.dict (dSet ses3 "$defs" (PyVal.dict [])))
            | _ => none
          -- schema["$defs"]["Partial" + name] = partial_schema
          let defs ← getK s4 "$defs"
          let s5 ← match defs with
            | PyVal.dict des =>
                setK s4 "$defs"
                  (PyVal.dict (dSet des ("Partial" ++ t.name) ps3))
            | _ => none
          -- schema["properties"][defaults_key] = {...$ref fragment...}
          let props5 ← getK s5 "properties"
          let s6 ← match props5 with
            | PyVal.dict pes5 =>
                setK s5 "properties"
                  (PyVal.dict (dSet pes5 defaults_key
                    (refDefaultsProp field_name defaults_key t.name)))
            | _ => none
          -- if field_name in schema["properties"]:
          let props6 ← getK s6 "properties"
          match props6 with
          | PyVal.dict pes6 =>
              if dMem pes6 field_name then do
                let frag ← dGet pes6 field_name
                -- original_desc = ...get("description", "")
                let original_desc ← match frag with
                  | PyVal.dict fes =>
                      some (match dGet fes "description" with
                        | some v => pyStr v
                        | none => "")
                  | _ => none
                -- schema["properties"][field_name]["description"] =
                --   f"{original_desc} {merge_desc}".strip()
                let frag1 ← setK frag "description"
                  (PyVal.str (pyStrip (original_desc ++ " " ++
                    mergeNote defaults_key t.name)))
                -- if "items" in schema["properties"][field_name]:
                let frag2 ← match frag1 with
                  | PyVal.dict fes1 =>
                      if dMem fes1 "items" then
                        some (PyVal.dict (dSet fes1 "items"
                          (itemsFragment t.name)))
                      else some (PyVal.dict fes1)
                  | _ => none
                setK s6 "properties"
                  (PyVal.dict (dSet pes6 field_name frag2))
              else
                pure s6
          | _ => none
      | none => pure s3
  | none => pure s3

/-- The patcher's loop over all bindings. -/
def patchAll (cls : ClsInfo) :
    List (String × SupportsDefaults) → PyVal → Option PyVal
  | [], s => some s
  | fb :: rest, s =>
      match patchBinding cls s fb with
      | some s' => patchAll cls rest s'
      | none => none

/-- Embedding of the `custom_model_json_schema` override installed by
`DefaultsMergeMixin.__init_subclass__` (lines 134-256), as a function of
the baseline schema returned by the original `model_json_schema`. -/
def custom_model_json_schema (cls : ClsInfo) (schema0 : PyVal) :
    Option PyVal :=
  patchAll cls (extract_defaults_fields cls) schema0

/-- The document one patch step produces on a generator-shaped baseline
(used to state the schema-patcher theorems; read off the trace of
`patchBinding`). -/
def patchedOut (bs pes fes des ses : List (String × PyVal))
    (reqs : List PyVal) (hasd : Bool) (f d name desc0 : String) : PyVal :=
  let pes1 := dSet pes d (genericDefaultsProp f d)
  let bs1 := dSet bs "properties" (PyVal.dict pes1)
  let bs2 := if hasd then dSet bs1 "required"
      (PyVal.lst (removeFirstStr reqs d)) else bs1
  let ps := PyVal.dict (dSet (dSet (dPop ses "required") "title"
      (PyVal.str ("Partial" ++ name))) "description"
      (PyVal.str (partialVariantDesc name)))
  let bs3 := dSet bs2 "$defs" (PyVal.dict (dSet des ("Partial" ++ name) ps))
  let pes2 := dSet pes1 d (refDefaultsProp f d name)
  let fes2 := dSet (dSet fes "description"
      (PyVal.str (pyStrip (desc0 ++ " " ++ mergeNote d name)))) "items"
      (itemsFragment name)
  PyVal.dict (dSet (dSet bs3 "properties" (PyVal.dict pes2)) "properties"
    (PyVal.dict (dSet pes2 f (PyVal.dict fes2))))

/-- Entries of the schema pydantic generates for the `Inner` model of
the repository's tests (`a: int`, `b: int`, `c: str = "default"`). -/
def sampleInnerEntries : List (String × PyVal) :=
  [("properties", PyVal.dict
      [("a", PyVal.dict [("title", PyVal.str "A"),
          ("type", PyVal.str "integer")]),
        ("b", PyVal.dict [("title", PyVal.str "B"),
          ("type", PyVal.str "integer")]),
        ("c", PyVal.dict [("default", PyVal.str "default"),
          ("title", PyVal.str "C"), ("type", PyVal.str "string")])]),
    ("required", PyVal.lst [PyVal.str "a", PyVal.str "b"]),
    ("title", PyVal.str "Inner"),
    ("type", PyVal.str "object")]

/-- The `Inner` schema document. -/
def sampleInnerSchema : PyVal := PyVal.dict sampleInnerEntries

/-- Entries of the baseline schema pydantic generates for the `Outer`
model of the repository's tests, before patching. -/
def sampleOuterEntries : List (String × PyVal) :=
  [("$defs", PyVal.dict [("Inner", sampleInnerSchema)]),
    ("properties", PyVal.dict
      [("inners", PyVal.dict [("description", PyVal.str "The inner list"),
          ("items", PyVal.dict [("$ref", PyVal.str "#/$defs/Inner")]),
          ("title", PyVal.str "Inners"), ("type", PyVal.str "array")]),
        ("name", PyVal.dict [("default", PyVal.str "test"),
          ("title", PyVal.str "Name"), ("type", PyVal.str "string")])]),
    ("required", PyVal.lst [PyVal.str "inners"]),
    ("title", PyVal.str "Outer"),
    ("type", PyVal.str "object")]

/-- The baseline `Outer` schema document. -/
def sampleOuterBase : PyVal := PyVal.dict sampleOuterEntries

/-- The `Outer` model's hints: one `Annotated[list[Inner], Field(...),
supports_defaults("inners_defaults")]` field and a plain field. -/
def sampleCls : ClsInfo :=
  ⟨some [("inners", Ann.annotated (Ann.listOf ⟨"Inner", some sampleInnerSchema⟩)
      [AnnMeta.otherMeta, AnnMeta.supports ⟨"inners_defaults"⟩]),
    ("name", Ann.otherAnn)]⟩

/-- A model whose type hints cannot be resolved. -/
def unresolvedCls : ClsInfo := ⟨none⟩

/-- A baseline like `sampleOuterEntries` whose definitions section
already holds a `PartialInner` entry left by an earlier registration. -/
def sampleOuterEntriesPrior : List (String × PyVal) :=
  [("$defs", PyVal.dict [("Inner", sampleInnerSchema),
      ("PartialInner", PyVal.dict [("stale", PyVal.bool true)])]),
    ("properties", PyVal.dict
      [("inners", PyVal.dict [("description", PyVal.str "The inner list"),
          ("items", PyVal.dict [("$ref", PyVal.str "#/$defs/Inner")]),
          ("title", PyVal.str "Inners"), ("type", PyVal.str "array")]),
        ("name", PyVal.dict [("default", PyVal.str "test"),
          ("title", PyVal.str "Name"), ("type", PyVal.str "string")])]),
    ("required", PyVal.lst [PyVal.str "inners"]),
    ("title", PyVal.str "Outer"),
    ("type", PyVal.str "object")]

/-- The pointer contributed by one mapping entry: the value under a
`$ref` key, when it is a string. -/
def refHead (k : String) (v : PyVal) : List String :=
  if k = "$ref" then
    match v with
    | PyVal.str s => [s]
    | _ => []
  else []

/-- All `$ref` pointer strings occurring anywhere in a schema
document. -/
def collectRefs : PyVal → List String
  | PyVal.dict [] => []
  | PyVal.dict ((k, v) :: rest) =>
      refHead k v ++ collectRefs v ++ collectRefs (PyVal.dict rest)
  | PyVal.lst [] => []
  | PyVal.lst (v :: rest) => collectRefs v ++ collectRefs (PyVal.lst rest)
  | _ => []

/-- A pointer string resolves against a definitions section with the
given keys when it is `#/$defs/` followed by one of them. -/
def resolvesIn (keys : List String) (r : String) : Bool :=
  keys.any (fun nm => r = "#/$defs/" ++ nm)

/-! ### Association-list lemmas -/

theorem dGet_cons (e : String × PyVal) (rest : List (String × PyVal))
    (k : String) :
    dGet (e :: rest) k = if e.1 = k then some e.2 else dGet rest k := by
  by_cases h : e.1 = k <;> simp [dGet, List.find?_cons, h]

theorem dMem_cons (e : String × PyVal) (rest : List (String × PyVal))
    (k : String) :
    dMem (e :: rest) k = (decide (e.1 = k) || dMem rest k) := by
  simp [dMem]

theorem dMem_eq_isSome (es : List (String × PyVal)) (k : String) :
    dMem es k = (dGet es k).isSome := by
  induction es with
  | nil => simp [dMem, dGet]
  | cons e rest ih =>
      rw [dGet_cons, dMem_cons]
      by_cases h : e.1 = k <;> simp [h, ih]

theorem dGet_mapSet_self (es : List (String × PyVal)) (k : String) (v : PyVal)
    (hm : dMem es k = true) :
    dGet (es.map (fun e => if e.1 = k then (k, v) else e)) k = some v := by
  induction es with
  | nil => simp [dMem] at hm
  | cons e rest ih =>
      by_cases h : e.1 = k
      · simp only [List.map_cons, h, if_true]
        rw [dGet_cons]
        simp
      · rw [dMem_cons] at hm
        simp only [h, decide_False, Bool.false_or] at hm
        simp only [List.map_cons, h, if_false]
        rw [dGet_cons]
        simp [h, ih hm]

theorem dGet_mapSet_ne (es : List (String × PyVal)) (k k' : String) (v : PyVal)
    (h : k ≠ k') :
    dGet (es.map (fun e => if e.1 = k' then (k', v) else e)) k = dGet es k := by
  induction es with
  | nil => simp
  | cons e rest ih =>
      by_cases he : e.1 = k'
      · simp only [List.map_cons, he, if_true]
        rw [dGet_cons, dGet_cons]
        simp [he, Ne.symm h, ih]
      · simp only [List.map_cons, he, if_false]
        rw [dGet_cons, dGet_cons, ih]

theorem dGet_appendOne_self (es : List (String × PyVal)) (k : String)
    (v : PyVal) : dGet (es ++ [(k, v)]) k = (dGet es k).or (some v) := by
  induction es with
  | nil => simp [dGet, List.find?]
  | cons e rest ih =>
      rw [List.cons_append, dGet_cons, dGet_cons]
      by_cases h : e.1 = k <;> simp [h, ih]

theorem dGet_appendOne_ne (es : List (String × PyVal)) (k k' : String)
    (v : PyVal) (h : k ≠ k') : dGet (es ++ [(k', v)]) k = dGet es k := by
  induction es with
  | nil => simp [dGet, List.find?, Ne.symm h]
  | cons e rest ih =>
      rw [List.cons_append, dGet_cons, dGet_cons]
      by_cases he : e.1 = k <;> simp [he, ih]

theorem dGet_dSet_self (es : List (String × PyVal)) (k : String) (v : PyVal) :
    dGet (dSet es k v) k = some v := by
  unfold dSet
  by_cases hm : dMem es k = true
  · simp [hm, dGet_mapSet_self es k v hm]
  · have hnone : dGet es k = none := by
      rw [dMem_eq_isSome] at hm
      simpa using hm
    simp [hm, dGet_appendOne_self, hnone]

theorem dGet_dSet_ne (es : List (String × PyVal)) (k k' : String) (v : PyVal)
    (h : k ≠ k') : dGet (dSet es k' v) k = dGet es k := by
  unfold dSet
  by_cases hm : dMem es k' = true
  · simp [hm, dGet_mapSet_ne es k k' v h]
  · simp [hm, dGet_appendOne_ne es k k' v h]

theorem dGet_dPop_self (es : List (String × PyVal)) (k : String) :
    dGet (dPop es k) k = none := by
  induction es with
  | nil => simp [dPop, dGet]
  | cons e rest ih =>
      by_cases h : e.1 = k
      · simp [dPop, List.filter_cons, h] at ih ⊢
        exact ih
      · simp only [dPop, List.filter_cons, h, not_false_iff, decide_True,
          if_true]
        rw [dGet_cons]
        simpa [dPop, h] using ih

theorem dGet_dPop_ne (es : List (String × PyVal)) (k k' : String)
    (h : k ≠ k') : dGet (dPop es k') k = dGet es k := by
  induction es with
  | nil => simp [dPop, dGet]
  | cons e rest ih =>
      by_cases he : e.1 = k'
      · rw [dGet_cons]
        simp only [dPop, List.filter_cons, he, not_true, decide_False,
          if_false]
        simp only [he, Ne.symm h, if_false]
        exact ih
      · simp only [dPop, List.filter_cons, he, not_false_iff, decide_True,
          if_true]
        rw [dGet_cons, dGet_cons]
        by_cases hk : e.1 = k
        · simp [hk]
        · simp only [hk, if_false]
          exact ih

theorem dGet_eq_none_of_not_mem_keys (es : List (String × PyVal)) (k : String)
    (h : k ∉ es.map Prod.fst) : dGet es k = none := by
  induction es with
  | nil => simp [dGet]
  | cons e rest ih =>
      simp only [List.map_cons, List.mem_cons] at h
      push_neg at h
      rw [dGet_cons]
      simp only [show ¬ e.1 = k from fun hh => h.1 hh.symm, if_false]
      exact ih h.2

/-- `d.update(other)` gives `other`'s value wherever `other` has the key
(duplicate-free, as every real Python dict is) and `d`'s value elsewhere. -/
theorem dGet_dUpdate (es other : List (String × PyVal)) (k : String)
    (h : (other.map Prod.fst).Nodup) :
    dGet (dUpdate es other) k = (dGet other k).or (dGet es k) := by
  induction other generalizing es with
  | nil => simp [dUpdate, dGet]
  | cons e rest ih =>
      simp only [List.map_cons, List.nodup_cons] at h
      have hstep : dUpdate es (e :: rest) = dUpdate (dSet es e.1 e.2) rest := by
        simp [dUpdate]
      rw [hstep, ih _ h.2, dGet_cons]
      by_cases hk : e.1 = k
      · have hrest : dGet rest k = none := by
          apply dGet_eq_none_of_not_mem_keys
          simpa [hk] using h.1
        simp [hk, hrest, hk ▸ dGet_dSet_self es e.1 e.2]
      · simp [hk, dGet_dSet_ne es k e.1 e.2 (fun hh => hk hh.symm)]

/-! ### Behaviour of one binding step of the merger -/

theorem mergeBinding_of_not_both (res : List (String × PyVal))
    (fb : String × SupportsDefaults)
    (h : ¬ (dMem res fb.1 = true ∧ dMem res fb.2.defaults_field = true)) :
    mergeBinding res fb = res := by
  unfold mergeBinding
  simp only [if_neg h]

theorem dGet_mergeBinding_ne (res : List (String × PyVal))
    (fb : String × SupportsDefaults) (k : String)
    (hf : fb.1 ≠ k) (hd : fb.2.defaults_field ≠ k) :
    dGet (mergeBinding res fb) k = dGet res k := by
  unfold mergeBinding
  dsimp only
  split
  · rw [dGet_dPop_ne _ _ _ (Ne.symm hd)]
    split
    · rw [dGet_dSet_ne _ _ _ _ (Ne.symm hf)]
    · rfl
  · rfl

theorem dGet_mergeBinding_dkey (res : List (String × PyVal))
    (fb : String × SupportsDefaults)
    (h1 : dMem res fb.1 = true) (h2 : dMem res fb.2.defaults_field = true) :
    dGet (mergeBinding res fb) fb.2.defaults_field = none := by
  unfold mergeBinding
  rw [if_pos ⟨h1, h2⟩]
  exact dGet_dPop_self _ _

theorem mergeBinding_of_list_dict (res : List (String × PyVal))
    (f d : String) (field_data : List PyVal)
    (defaults_data : List (String × PyVal))
    (hf : dGet res f = some (PyVal.lst field_data))
    (hd : dGet res d = some (PyVal.dict defaults_data)) :
    mergeBinding res (f, ⟨d⟩) =
      dPop (dSet res f
        (PyVal.lst (field_data.map (mergeItem defaults_data)))) d := by
  unfold mergeBinding
  have h1 : dMem res f = true := by rw [dMem_eq_isSome, hf]; rfl
  have h2 : dMem res d = true := by rw [dMem_eq_isSome, hd]; rfl
  rw [if_pos ⟨h1, h2⟩]
  simp only [hf, hd]

theorem dGet_foldl_mergeBinding_ne (l : List (String × SupportsDefaults))
    (es : List (String × PyVal)) (k : String)
    (h : ∀ fb ∈ l, fb.1 ≠ k ∧ fb.2.defaults_field ≠ k) :
    dGet (l.foldl mergeBinding es) k = dGet es k := by
  induction l generalizing es with
  | nil => rfl
  | cons fb rest ih =>
      rw [List.foldl_cons,
        ih _ (fun x hx => h x (List.mem_cons_of_mem _ hx)),
        dGet_mergeBinding_ne _ _ _ (h fb (List.mem_cons_self _ _)).1
          (h fb (List.mem_cons_self _ _)).2]

/-! ### Claim theorems about the Defaults Merger (value level) -/

/-- C10: for a mapping-shaped input record, every key that is neither a
defaults-bearing field name nor a defaults key of any binding is mapped
by the merger's output to exactly the value it had in the input (in
particular no such key is added or removed). -/
theorem merger_preserves_unrelated_keys
    (defaults_fields : List (String × SupportsDefaults))
    (es : List (String × PyVal)) (k : String)
    (h : ∀ fb ∈ defaults_fields, fb.1 ≠ k ∧ fb.2.defaults_field ≠ k) :
    pyGet (mergeDefaults defaults_fields (PyVal.dict es)) k = dGet es k := by
  unfold mergeDefaults
  by_cases he : defaults_fields.isEmpty
  · simp [he, pyGet]
  · simp only [he, Bool.false_eq_true, if_false, pyGet]
    exact dGet_foldl_mergeBinding_ne defaults_fields es k h

/-- Witness for `merger_preserves_unrelated_keys` at a concrete record. -/
theorem merger_preserves_unrelated_keys_witness :
    pyGet (mergeDefaults [("inners", ⟨"inners_defaults"⟩)]
        (PyVal.dict [("name", PyVal.str "x"),
          ("inners", PyVal.lst []), ("inners_defaults", PyVal.dict [])]))
      "name"
      = dGet [("name", PyVal.str "x"),
          ("inners", PyVal.lst []), ("inners_defaults", PyVal.dict [])]
        "name" :=
  merger_preserves_unrelated_keys [("inners", ⟨"inners_defaults"⟩)]
    [("name", PyVal.str "x"),
      ("inners", PyVal.lst []), ("inners_defaults", PyVal.dict [])]
    "name" (by decide)

/-- C1 counterexample: with the single binding
`("inners", defaults field "inners_defaults")` and a record holding only
the defaults key (the target list field is absent), the merger returns
the defaults key untouched: the claim that the defaults key never
survives in the output is false on the code, whose
`result_data.pop(defaults_key, None)` only runs when the field and the
defaults key are both present. -/
theorem defaults_key_survives_when_field_absent :
    pyGet (mergeDefaults [("inners", ⟨"inners_defaults"⟩)]
        (PyVal.dict [("inners_defaults", PyVal.dict [("b", PyVal.int 1)])]))
      "inners_defaults"
      = some (PyVal.dict [("b", PyVal.int 1)]) := rfl

/-- C1 (amended): the defaults key is stripped from the output exactly
when the merge branch for its binding runs, i.e. when the target field
and the defaults key are both present in the record; when the target
field is absent the record passes through with the defaults key (and its
value) intact.  Stated for any binding list in which the other bindings
do not mention the two keys at issue. -/
theorem defaults_key_stripped_iff_field_present
    (pre post : List (String × SupportsDefaults)) (f d : String)
    (es : List (String × PyVal))
    (hpre : ∀ fb ∈ pre, (fb.1 ≠ f ∧ fb.2.defaults_field ≠ f) ∧
      (fb.1 ≠ d ∧ fb.2.defaults_field ≠ d))
    (hpost : ∀ fb ∈ post, fb.1 ≠ d ∧ fb.2.defaults_field ≠ d) :
    (dMem es f = true → dMem es d = true →
      pyGet (mergeDefaults (pre ++ (f, ⟨d⟩) :: post) (PyVal.dict es)) d = none)
    ∧ (dMem es f = false →
      pyGet (mergeDefaults (pre ++ (f, ⟨d⟩) :: post) (PyVal.dict es)) d
        = dGet es d) := by
  have hne : (pre ++ (f, ⟨d⟩) :: post).isEmpty = false := by
    simp [List.isEmpty_eq_false_iff_exists_mem]
  have hf0 : dGet (pre.foldl mergeBinding es) f = dGet es f :=
    dGet_foldl_mergeBinding_ne pre es f (fun fb hb => (hpre fb hb).1)
  have hd0 : dGet (pre.foldl mergeBinding es) d = dGet es d :=
    dGet_foldl_mergeBinding_ne pre es d (fun fb hb => (hpre fb hb).2)
  unfold mergeDefaults
  rw [hne]
  simp only [Bool.false_eq_true, if_false, pyGet, List.foldl_append,
    List.foldl_cons]
  constructor
  · intro h1 h2
    have h1' : dMem (pre.foldl mergeBinding es) f = true := by
      rw [dMem_eq_isSome, hf0, ← dMem_eq_isSome]; exact h1
    have h2' : dMem (pre.foldl mergeBinding es) d = true := by
      rw [dMem_eq_isSome, hd0, ← dMem_eq_isSome]; exact h2
    rw [dGet_foldl_mergeBinding_ne post _ d hpost]
    exact dGet_mergeBinding_dkey _ (f, ⟨d⟩) h1' h2'
  · intro h1
    have h1' : ¬ (dMem (pre.foldl mergeBinding es) f = true ∧
        dMem (pre.foldl mergeBinding es) d = true) := by
      rw [dMem_eq_isSome, hf0, ← dMem_eq_isSome]
      intro hc
      rw [h1] at hc
      exact absurd hc.1 (by simp)
    rw [dGet_foldl_mergeBinding_ne post _ d hpost,
      mergeBinding_of_not_both _ _ h1', hd0]

/-- Witness for `defaults_key_stripped_iff_field_present`. -/
theorem defaults_key_stripped_iff_field_present_witness :
    (dMem [("inners", PyVal.lst []), ("inners_defaults", PyVal.dict [])]
        "inners" = true →
      dMem [("inners", PyVal.lst []), ("inners_defaults", PyVal.dict [])]
        "inners_defaults" = true →
      pyGet (mergeDefaults ([] ++ ("inners", ⟨"inners_defaults"⟩) :: [])
          (PyVal.dict [("inners", PyVal.lst []),
            ("inners_defaults", PyVal.dict [])]))
        "inners_defaults" = none)
    ∧ (dMem [("inners", PyVal.lst []), ("inners_defaults", PyVal.dict [])]
        "inners" = false →
      pyGet (mergeDefaults ([] ++ ("inners", ⟨"inners_defaults"⟩) :: [])
          (PyVal.dict [("inners", PyVal.lst []),
            ("inners_defaults", PyVal.dict [])]))
        "inners_defaults"
        = dGet [("inners", PyVal.lst []), ("inners_defaults", PyVal.dict [])]
          "inners_defaults") :=
  defaults_key_stripped_iff_field_present [] [] "inners" "inners_defaults"
    [("inners", PyVal.lst []), ("inners_defaults", PyVal.dict [])]
    (by simp) (by simp)

/-- C2: when a binding's field holds a list and its defaults key holds a
mapping, the output maps the field to the element-wise merged list:
mapping elements become the defaults mapping overlaid with the element's
own keys (element keys win), non-mapping elements pass through unchanged,
order and length are preserved, and the defaults key is absent from the
output.  Stated for any binding list in which the other bindings do not
mention the two keys at issue. -/
theorem merger_overlays_defaults_on_list_elements
    (pre post : List (String × SupportsDefaults)) (f d : String)
    (es : List (String × PyVal)) (field_data : List PyVal)
    (defaults_data : List (String × PyVal))
    (hpre : ∀ fb ∈ pre, (fb.1 ≠ f ∧ fb.2.defaults_field ≠ f) ∧
      (fb.1 ≠ d ∧ fb.2.defaults_field ≠ d))
    (hpost : ∀ fb ∈ post, (fb.1 ≠ f ∧ fb.2.defaults_field ≠ f) ∧
      (fb.1 ≠ d ∧ fb.2.defaults_field ≠ d))
    (hf : dGet es f = some (PyVal.lst field_data))
    (hd : dGet es d = some (PyVal.dict defaults_data)) :
    ∃ items,
      pyGet (mergeDefaults (pre ++ (f, ⟨d⟩) :: post) (PyVal.dict es)) f
        = some (PyVal.lst items)
      ∧ items.length = field_data.length
      ∧ (∀ (i : Nat) (its : List (String × PyVal)), field_data[i]? = some (PyVal.dict its) →
          (its.map Prod.fst).Nodup →
          ∃ m, items[i]? = some (PyVal.dict m) ∧
            ∀ k, dGet m k = (dGet its k).or (dGet defaults_data k))
      ∧ (∀ (i : Nat) (item : PyVal), field_data[i]? = some item → item.isDict = false →
          items[i]? = some item)
      ∧ pyGet (mergeDefaults (pre ++ (f, ⟨d⟩) :: post) (PyVal.dict es)) d
          = none := by
  have hfd : f ≠ d := by
    intro hh
    rw [hh, hd] at hf
    exact PyVal.noConfusion (Option.some.inj hf)
  have hne : (pre ++ (f, ⟨d⟩) :: post).isEmpty = false := by
    simp [List.isEmpty_eq_false_iff_exists_mem]
  have hf0 : dGet (pre.foldl mergeBinding es) f = dGet es f :=
    dGet_foldl_mergeBinding_ne pre es f (fun fb hb => (hpre fb hb).1)
  have hd0 : dGet (pre.foldl mergeBinding es) d = dGet es d :=
    dGet_foldl_mergeBinding_ne pre es d (fun fb hb => (hpre fb hb).2)
  have hmid : mergeBinding (pre.foldl mergeBinding es) (f, ⟨d⟩) =
      dPop (dSet (pre.foldl mergeBinding es) f
        (PyVal.lst (field_data.map (mergeItem defaults_data)))) d :=
    mergeBinding_of_list_dict _ f d field_data defaults_data
      (hf0.trans hf) (hd0.trans hd)
  refine ⟨field_data.map (mergeItem defaults_data), ?_, ?_, ?_, ?_, ?_⟩
  · unfold mergeDefaults
    rw [hne]
    simp only [Bool.false_eq_true, if_false, pyGet, List.foldl_append,
      List.foldl_cons]
    rw [dGet_foldl_mergeBinding_ne post _ f (fun fb hb => (hpost fb hb).1),
      hmid, dGet_dPop_ne _ _ _ hfd, dGet_dSet_self]
  · exact field_data.length_map _
  · intro i its hi hnodup
    refine ⟨dUpdate defaults_data its, ?_, ?_⟩
    · rw [List.getElem?_map, hi]
      rfl
    · intro k
      exact dGet_dUpdate defaults_data its k hnodup
  · intro i item hi hnd
    rw [List.getElem?_map, hi]
    cases item <;> simp_all [mergeItem, PyVal.isDict]
  · unfold mergeDefaults
    rw [hne]
    simp only [Bool.false_eq_true, if_false, pyGet, List.foldl_append,
      List.foldl_cons]
    rw [dGet_foldl_mergeBinding_ne post _ d (fun fb hb => (hpost fb hb).2),
      hmid, dGet_dPop_self]

/-- Witness for `merger_overlays_defaults_on_list_elements`: the concrete
scenario of the claim, together with a direct evaluation of the merger
on it (the merged elements are Python-equal to the dictionaries the
claim expects, and the defaults key is gone). -/
theorem merger_overlays_defaults_on_list_elements_witness :
    (∃ items,
      pyGet (mergeDefaults ([] ++ ("inners", ⟨"inners_defaults"⟩) :: [])
          (PyVal.dict
            [("inners_defaults",
                PyVal.dict [("b", PyVal.int 1), ("c", PyVal.str "from_defaults")]),
              ("inners", PyVal.lst
                [PyVal.dict [("a", PyVal.int 1)],
                  PyVal.dict [("a", PyVal.int 2), ("b", PyVal.int 5)],
                  PyVal.dict [("a", PyVal.int 3), ("b", PyVal.int 2),
                    ("c", PyVal.str "custom")]])])) "inners"
        = some (PyVal.lst items)
      ∧ items.length = 3
      ∧ (∀ (i : Nat) (its : List (String × PyVal)),
          ([PyVal.dict [("a", PyVal.int 1)],
            PyVal.dict [("a", PyVal.int 2), ("b", PyVal.int 5)],
            PyVal.dict [("a", PyVal.int 3), ("b", PyVal.int 2),
              ("c", PyVal.str "custom")]] : List PyVal)[i]?
            = some (PyVal.dict its) →
          (its.map Prod.fst).Nodup →
          ∃ m, items[i]? = some (PyVal.dict m) ∧
            ∀ k, dGet m k = (dGet its k).or
              (dGet [("b", PyVal.int 1), ("c", PyVal.str "from_defaults")] k))
      ∧ (∀ (i : Nat) (item : PyVal),
          ([PyVal.dict [("a", PyVal.int 1)],
            PyVal.dict [("a", PyVal.int 2), ("b", PyVal.int 5)],
            PyVal.dict [("a", PyVal.int 3), ("b", PyVal.int 2),
              ("c", PyVal.str "custom")]] : List PyVal)[i]? = some item →
          item.isDict = false → items[i]? = some item)
      ∧ pyGet (mergeDefaults ([] ++ ("inners", ⟨"inners_defaults"⟩) :: [])
          (PyVal.dict
            [("inners_defaults",
                PyVal.dict [("b", PyVal.int 1), ("c", PyVal.str "from_defaults")]),
              ("inners", PyVal.lst
                [PyVal.dict [("a", PyVal.int 1)],
                  PyVal.dict [("a", PyVal.int 2), ("b", PyVal.int 5)],
                  PyVal.dict [("a", PyVal.int 3), ("b", PyVal.int 2),
                    ("c", PyVal.str "custom")]])])) "inners_defaults" = none)
    ∧ (mergeDefaults [("inners", ⟨"inners_defaults"⟩)]
        (PyVal.dict
          [("inners_defaults",
              PyVal.dict [("b", PyVal.int 1), ("c", PyVal.str "from_defaults")]),
            ("inners", PyVal.lst
              [PyVal.dict [("a", PyVal.int 1)],
                PyVal.dict [("a", PyVal.int 2), ("b", PyVal.int 5)],
                PyVal.dict [("a", PyVal.int 3), ("b", PyVal.int 2),
                  ("c", PyVal.str "custom")]])])
        = PyVal.dict [("inners", PyVal.lst
            [PyVal.dict [("b", PyVal.int 1), ("c", PyVal.str "from_defaults"),
              ("a", PyVal.int 1)],
              PyVal.dict [("b", PyVal.int 5), ("c", PyVal.str "from_defaults"),
                ("a", PyVal.int 2)],
              PyVal.dict [("b", PyVal.int 2), ("c", PyVal.str "custom"),
                ("a", PyVal.int 3)]])])
    ∧ dEqvB [("b", PyVal.int 1), ("c", PyVal.str "from_defaults"),
        ("a", PyVal.int 1)]
      [("a", PyVal.int 1), ("b", PyVal.int 1),
        ("c", PyVal.str "from_defaults")] = true
    ∧ dEqvB [("b", PyVal.int 5), ("c", PyVal.str "from_defaults"),
        ("a", PyVal.int 2)]
      [("a", PyVal.int 2), ("b", PyVal.int 5),
        ("c", PyVal.str "from_defaults")] = true
    ∧ dEqvB [("b", PyVal.int 2), ("c", PyVal.str "custom"),
        ("a", PyVal.int 3)]
      [("a", PyVal.int 3), ("b", PyVal.int 2),
        ("c", PyVal.str "custom")] = true :=
  ⟨merger_overlays_defaults_on_list_elements [] [] "inners" "inners_defaults"
      [("inners_defaults",
          PyVal.dict [("b", PyVal.int 1), ("c", PyVal.str "from_defaults")]),
        ("inners", PyVal.lst
          [PyVal.dict [("a", PyVal.int 1)],
            PyVal.dict [("a", PyVal.int 2), ("b", PyVal.int 5)],
            PyVal.dict [("a", PyVal.int 3), ("b", PyVal.int 2),
              ("c", PyVal.str "custom")]])]
      [PyVal.dict [("a", PyVal.int 1)],
        PyVal.dict [("a", PyVal.int 2), ("b", PyVal.int 5)],
        PyVal.dict [("a", PyVal.int 3), ("b", PyVal.int 2),
          ("c", PyVal.str "custom")]]
      [("b", PyVal.int 1), ("c", PyVal.str "from_defaults")]
      (by simp) (by simp) (by rfl) (by rfl),
    by rfl, by rfl, by rfl, by rfl⟩

/-! ### Heap frame lemmas: the merger only allocates and writes fresh cells -/

theorem dc_extends (fuel : Nat) :
    (∀ h a h1 a', deepcopy fuel h a = some (h1, a') → ∃ ext, h1 = h ++ ext)
    ∧ (∀ h es h1 es', dcEntries fuel h es = some (h1, es') →
        ∃ ext, h1 = h ++ ext)
    ∧ (∀ h xs h1 xs', dcList fuel h xs = some (h1, xs') →
        ∃ ext, h1 = h ++ ext) := by
  induction fuel with
  | zero =>
      refine ⟨?_, ?_, ?_⟩ <;> intro h a h1 a' hrun <;>
        simp [deepcopy, dcEntries, dcList] at hrun
  | succ fuel ih =>
      obtain ⟨ih1, ih2, ih3⟩ := ih
      refine ⟨?_, ?_, ?_⟩
      · intro h a h1 a' hrun
        cases hna : h[a]? with
        | none => simp [deepcopy, hna] at hrun
        | some node =>
            cases node with
            | dict es =>
                simp only [deepcopy, hna] at hrun
                cases hde : dcEntries fuel h es with
                | none => simp [hde] at hrun
                | some p =>
                    obtain ⟨h2, es'⟩ := p
                    simp only [hde] at hrun
                    obtain ⟨hh, _⟩ := Prod.mk.injEq .. ▸ Option.some.inj hrun
                    obtain ⟨ext, hext⟩ := ih2 h es h2 es' hde
                    exact ⟨ext ++ [HNode.dict es'], by
                      rw [← hh, hext, List.append_assoc]⟩
            | lst xs =>
                simp only [deepcopy, hna] at hrun
                cases hdl : dcList fuel h xs with
                | none => simp [hdl] at hrun
                | some p =>
                    obtain ⟨h2, xs'⟩ := p
                    simp only [hdl] at hrun
                    obtain ⟨hh, _⟩ := Prod.mk.injEq .. ▸ Option.some.inj hrun
                    obtain ⟨ext, hext⟩ := ih3 h xs h2 xs' hdl
                    exact ⟨ext ++ [HNode.lst xs'], by
                      rw [← hh, hext, List.append_assoc]⟩
            | int v =>
                simp only [deepcopy, hna] at hrun
                obtain ⟨hh, _⟩ := Prod.mk.injEq .. ▸ Option.some.inj hrun
                exact ⟨[], by simp [← hh]⟩
            | str s =>
                simp only [deepcopy, hna] at hrun
                obtain ⟨hh, _⟩ := Prod.mk.injEq .. ▸ Option.some.inj hrun
                exact ⟨[], by simp [← hh]⟩
            | bool b =>
                simp only [deepcopy, hna] at hrun
                obtain ⟨hh, _⟩ := Prod.mk.injEq .. ▸ Option.some.inj hrun
                exact ⟨[], by simp [← hh]⟩
            | pynone =>
                simp only [deepcopy, hna] at hrun
                obtain ⟨hh, _⟩ := Prod.mk.injEq .. ▸ Option.some.inj hrun
                exact ⟨[], by simp [← hh]⟩
      · intro h es h1 es' hrun
        cases es with
        | nil =>
            simp only [dcEntries] at hrun
            obtain ⟨hh, _⟩ := Prod.mk.injEq .. ▸ Option.some.inj hrun
            exact ⟨[], by simp [← hh]⟩
        | cons e rest =>
            obtain ⟨k, a⟩ := e
            simp only [dcEntries] at hrun
            cases hdc : deepcopy fuel h a with
            | none => simp [hdc] at hrun
            | some p =>
                obtain ⟨h2, a'⟩ := p
                simp only [hdc] at hrun
                cases hde : dcEntries fuel h2 rest with
                | none => simp [hde] at hrun
                | some q =>
                    obtain ⟨h3, rest'⟩ := q
                    simp only [hde] at hrun
                    obtain ⟨hh, _⟩ := Prod.mk.injEq .. ▸ Option.some.inj hrun
                    obtain ⟨ext1, hext1⟩ := ih1 h a h2 a' hdc
                    obtain ⟨ext2, hext2⟩ := ih2 h2 rest h3 rest' hde
                    exact ⟨ext1 ++ ext2, by
                      rw [← hh, hext2, hext1, List.append_assoc]⟩
      · intro h xs h1 xs' hrun
        cases xs with
        | nil =>
            simp only [dcList] at hrun
            obtain ⟨hh, _⟩ := Prod.mk.injEq .. ▸ Option.some.inj hrun
            exact ⟨[], by simp [← hh]⟩
        | cons a rest =>
            simp only [dcList] at hrun
            cases hdc : deepcopy fuel h a with
            | none => simp [hdc] at hrun
            | some p =>
                obtain ⟨h2, a'⟩ := p
                simp only [hdc] at hrun
                cases hdl : dcList fuel h2 rest with
                | none => simp [hdl] at hrun
                | some q =>
                    obtain ⟨h3, rest'⟩ := q
                    simp only [hdl] at hrun
                    obtain ⟨hh, _⟩ := Prod.mk.injEq .. ▸ Option.some.inj hrun
                    obtain ⟨ext1, hext1⟩ := ih1 h a h2 a' hdc
                    obtain ⟨ext2, hext2⟩ := ih3 h2 rest h3 rest' hdl
                    exact ⟨ext1 ++ ext2, by
                      rw [← hh, hext2, hext1, List.append_assoc]⟩

theorem deepcopy_extends (fuel : Nat) (h : Heap) (a : Nat) (h1 : Heap)
    (a' : Nat) (hrun : deepcopy fuel h a = some (h1, a')) :
    ∃ ext, h1 = h ++ ext :=
  (dc_extends fuel).1 h a h1 a' hrun

theorem deepcopy_dict_fresh (fuel : Nat) (h : Heap) (a : Nat) (h1 : Heap)
    (a' : Nat) (es : List (String × Nat))
    (hna : h[a]? = some (HNode.dict es))
    (hrun : deepcopy fuel h a = some (h1, a')) :
    h.length ≤ a' := by
  cases fuel with
  | zero => simp [deepcopy] at hrun
  | succ fuel =>
      simp only [deepcopy, hna] at hrun
      cases hde : dcEntries fuel h es with
      | none => simp [hde] at hrun
      | some p =>
          obtain ⟨h2, es'⟩ := p
          simp only [hde] at hrun
          obtain ⟨_, ha⟩ := Prod.mk.injEq .. ▸ Option.some.inj hrun
          obtain ⟨ext, hext⟩ := (dc_extends fuel).2.1 h es h2 es' hde
          rw [← ha, hext]
          simp

theorem mergeItemsH_frame (fuel da : Nat) (items : List Nat) :
    ∀ h h1 ms, mergeItemsH fuel da h items = some (h1, ms) →
    (∃ des, h[da]? = some (HNode.dict des)) →
    h.length ≤ h1.length ∧ ∀ i, i < h.length → h1[i]? = h[i]? := by
  induction items with
  | nil =>
      intro h h1 ms hrun _
      simp only [mergeItemsH] at hrun
      obtain ⟨hh, _⟩ := Prod.mk.injEq .. ▸ Option.some.inj hrun
      exact ⟨le_of_eq (by rw [hh]), fun i _ => by rw [hh]⟩
  | cons item rest ih =>
      intro h h1 ms hrun hda
      obtain ⟨des, hdes⟩ := hda
      have hda_lt : da < h.length := by
        by_contra hcon
        rw [List.getElem?_eq_none (by omega)] at hdes
        exact Option.noConfusion hdes
      simp only [mergeItemsH] at hrun
      cases hni : h[item]? with
      | none => simp [hni] at hrun
      | some node =>
          simp only [hni] at hrun
          cases node
          case dict its0 =>
              dsimp only at hrun
              cases hdc : deepcopy fuel h da with
              | none => simp [hdc] at hrun
              | some p =>
                  obtain ⟨h2, m⟩ := p
                  simp only [hdc] at hrun
                  obtain ⟨ext, hext⟩ := deepcopy_extends fuel h da h2 m hdc
                  have hm_ge : h.length ≤ m :=
                    deepcopy_dict_fresh fuel h da h2 m des hdes hdc
                  cases hcm : h2[m]? with
                  | none => simp [hcm] at hrun
                  | some mnode =>
                      simp only [hcm] at hrun
                      cases hitem2 : h2[item]? with
                      | none =>
                          simp only [hitem2] at hrun
                          cases mnode <;> simp at hrun
                      | some inode =>
                          simp only [hitem2] at hrun
                          cases mnode <;> cases inode <;> dsimp only at hrun <;>
                            try exact Option.noConfusion hrun
                          rename_i ces its
                          cases hrec : mergeItemsH fuel da
                              (h2.set m (HNode.dict (aUpdate ces its))) rest with
                          | none => simp [hrec] at hrun
                          | some q =>
                              obtain ⟨h3, ms'⟩ := q
                              simp only [hrec] at hrun
                              obtain ⟨hh, _⟩ :=
                                Prod.mk.injEq .. ▸ Option.some.inj hrun
                              have hda2 : ((h2.set m
                                  (HNode.dict (aUpdate ces its)))[da]?
                                  = some (HNode.dict des)) := by
                                rw [List.getElem?_set_ne (by omega), hext,
                                  List.getElem?_append_left hda_lt]
                                exact hdes
                              have hih := ih (h2.set m (HNode.dict (aUpdate ces its)))
                                h3 ms' hrec ⟨des, hda2⟩
                              refine ⟨?_, ?_⟩
                              · rw [← hh]
                                calc h.length ≤ h2.length := by
                                      rw [hext]; simp
                                  _ = (h2.set m (HNode.dict (aUpdate ces its))).length := by
                                      simp
                                  _ ≤ h3.length := hih.1
                              · intro i hi
                                have hi2 : i < (h2.set m
                                    (HNode.dict (aUpdate ces its))).length := by
                                  rw [List.length_set, hext]
                                  simp only [List.length_append]
                                  omega
                                rw [← hh, hih.2 i hi2,
                                  List.getElem?_set_ne (by omega), hext,
                                  List.getElem?_append_left hi]
          all_goals
            dsimp only at hrun
            cases hrec : mergeItemsH fuel da h rest with
            | none => simp [hrec] at hrun
            | some q =>
                obtain ⟨h3, ms'⟩ := q
                simp only [hrec] at hrun
                obtain ⟨hh, _⟩ := Prod.mk.injEq .. ▸ Option.some.inj hrun
                have hih := ih h h3 ms' hrec ⟨des, hdes⟩
                exact ⟨by rw [← hh]; exact hih.1,
                  fun i hi => by rw [← hh]; exact hih.2 i hi⟩

theorem mergeBindingH_frame (fuel : Nat) (h : Heap) (r : Nat)
    (fb : String × SupportsDefaults) (h' : Heap)
    (hrun : mergeBindingH fuel h r fb = some h')
    (n : Nat) (hr : n ≤ r) :
    h.length ≤ h'.length ∧ ∀ i, i < n → h'[i]? = h[i]? := by
  simp only [mergeBindingH] at hrun
  split at hrun
  case h_2 => exact Option.noConfusion hrun
  rename_i res heq
  have hr_lt : r < h.length := by
    by_contra hcon
    rw [List.getElem?_eq_none (by omega)] at heq
    exact Option.noConfusion heq
  split at hrun
  · split at hrun
    case h_2 => exact Option.noConfusion hrun
    rename_i fa da heqf heqd
    split at hrun
    case h_2 => exact Option.noConfusion hrun
    rename_i h2 heqAM
    split at hrun
    case h_2 => exact Option.noConfusion hrun
    rename_i res2 heq2
    obtain hh := Option.some.inj hrun
    split at heqAM
    case h_2 =>
      obtain hh2 := Option.some.inj heqAM
      refine ⟨?_, fun i hi => ?_⟩
      · rw [← hh, ← hh2]
        simp
      · rw [← hh, ← hh2, List.getElem?_set_ne (by omega)]
    case h_1 =>
      rename_i items entries heqfa heqda
      split at heqAM
      case h_2 => exact Option.noConfusion heqAM
      rename_i h1 merged heqmi
      split at heqAM
      case h_2 => exact Option.noConfusion heqAM
      rename_i res1 heqr1
      obtain hh2 := Option.some.inj heqAM
      have hmif := mergeItemsH_frame fuel da items h h1 merged heqmi
        ⟨entries, heqda⟩
      have hlen1 := hmif.1
      refine ⟨?_, fun i hi => ?_⟩
      · rw [← hh, ← hh2]
        simp only [List.length_set, List.length_append, List.length_singleton]
        omega
      · rw [← hh, List.getElem?_set_ne (by omega), ← hh2,
          List.getElem?_set_ne (by omega),
          List.getElem?_append_left (by omega), hmif.2 i (by omega)]
  · obtain hh := Option.some.inj hrun
    exact ⟨by rw [← hh], fun i hi => by rw [← hh]⟩

theorem mergeBindingsH_frame (fuel r : Nat)
    (bindings : List (String × SupportsDefaults)) :
    ∀ h h', mergeBindingsH fuel r bindings h = some h' →
    ∀ n, n ≤ h.length → n ≤ r →
    h.length ≤ h'.length ∧ ∀ i, i < n → h'[i]? = h[i]? := by
  induction bindings with
  | nil =>
      intro h h' hrun n hn hr
      obtain hh := Option.some.inj hrun
      exact ⟨by rw [← hh], fun i hi => by rw [← hh]⟩
  | cons fb rest ih =>
      intro h h' hrun n hn hr
      simp only [mergeBindingsH] at hrun
      cases hstep : mergeBindingH fuel h r fb with
      | none => simp [hstep] at hrun
      | some h2 =>
          simp only [hstep] at hrun
          have h1f := mergeBindingH_frame fuel h r fb h2 hstep n hr
          have h2f := ih h2 h' hrun n (le_trans hn h1f.1) hr
          exact ⟨le_trans h1f.1 h2f.1,
            fun i hi => (h2f.2 i hi).trans (h1f.2 i hi)⟩

/-- C8: the heap-level merger never mutates any pre-existing object.
Every cell of the caller's heap — in particular the input record and
every defaults mapping it references — is unchanged in the output heap,
and when the input is a mapping and the model has bindings the returned
record is a freshly allocated mapping (its address is not a pre-existing
address). -/
theorem merger_never_mutates_caller_objects
    (bindings : List (String × SupportsDefaults)) (fuel : Nat)
    (h : Heap) (a : Nat) (h' : Heap) (r : Nat)
    (hrun : mergeDefaultsH bindings fuel h a = some (h', r)) :
    (∀ i, i < h.length → h'[i]? = h[i]?)
    ∧ h'.take h.length = h
    ∧ (∀ es, h[a]? = some (HNode.dict es) → bindings ≠ [] → r = h.length) := by
  have main : (∀ i, i < h.length → h'[i]? = h[i]?)
      ∧ (∀ es, h[a]? = some (HNode.dict es) → bindings ≠ [] →
          r = h.length) := by
    simp only [mergeDefaultsH] at hrun
    cases hna : h[a]? with
    | none => simp [hna] at hrun
    | some node =>
        simp only [hna] at hrun
        cases node <;> dsimp only at hrun
        case dict es =>
            by_cases hbe : bindings.isEmpty
            · rw [if_pos hbe] at hrun
              obtain ⟨hh, _⟩ := Prod.mk.injEq .. ▸ Option.some.inj hrun
              refine ⟨fun i _ => by rw [← hh], fun es' _ hne => ?_⟩
              exact absurd (List.isEmpty_iff.mp hbe) hne
            · rw [if_neg hbe] at hrun
              cases hmb : mergeBindingsH fuel h.length bindings
                  (h ++ [HNode.dict es]) with
              | none => simp [hmb] at hrun
              | some h2 =>
                  simp only [hmb] at hrun
                  obtain ⟨hh, hrr⟩ := Prod.mk.injEq .. ▸ Option.some.inj hrun
                  have hf := mergeBindingsH_frame fuel h.length bindings
                    (h ++ [HNode.dict es]) h2 hmb h.length (by simp) le_rfl
                  refine ⟨fun i hi => ?_, fun _ _ _ => hrr.symm⟩
                  rw [← hh, hf.2 i hi, List.getElem?_append_left hi]
        all_goals
          obtain ⟨hh, _⟩ := Prod.mk.injEq .. ▸ Option.some.inj hrun
          exact ⟨fun i _ => by rw [← hh], fun es' hes' _ =>
            HNode.noConfusion (Option.some.inj hes')⟩
  refine ⟨main.1, ?_, main.2⟩
  apply List.ext_getElem?
  intro j
  rw [List.getElem?_take]
  by_cases hj : j < h.length
  · simp [hj, main.1 j hj]
  · have hnone : h[j]? = none := List.getElem?_eq_none (by omega)
    simp [hj, hnone]

/-- Witness for `merger_never_mutates_caller_objects` on a concrete
heap. -/
theorem merger_never_mutates_caller_objects_witness :
    (∀ i, i < exHeapC8.length → exHeapC8'[i]? = exHeapC8[i]?)
    ∧ exHeapC8'.take exHeapC8.length = exHeapC8
    ∧ (∀ es, exHeapC8[5]? = some (HNode.dict es) →
        [("inners", (⟨"inners_defaults"⟩ : SupportsDefaults))] ≠ [] →
        6 = exHeapC8.length) :=
  merger_never_mutates_caller_objects
    [("inners", ⟨"inners_defaults"⟩)] 100 exHeapC8 5 exHeapC8' 6 rfl

/-! ### Schema-patcher trace -/

/-- Trace of one patch step on a generator-shaped baseline. -/
theorem patchBinding_trace (cls : ClsInfo) (f d name desc0 : String)
    (bs pes fes des ses : List (String × PyVal)) (reqs : List PyVal)
    (hasd : Bool)
    (hresolver : get_inner_type_from_list_annotation cls f
      = some ⟨name, some (PyVal.dict ses)⟩)
    (hprops : dGet bs "properties" = some (PyVal.dict pes))
    (hdnot : dMem pes d = false)
    (hreq : dGet bs "required" = some (PyVal.lst reqs))
    (hdreq : reqs.any (fun e => match e with
        | PyVal.str s => s = d
        | _ => false) = hasd)
    (hfield : dGet pes f = some (PyVal.dict fes))
    (hdesc : dGet fes "description" = some (PyVal.str desc0))
    (hitems : dMem fes "items" = true)
    (hdefs : dGet bs "$defs" = some (PyVal.dict des)) :
    patchBinding cls (PyVal.dict bs) (f, ⟨d⟩)
      = some (patchedOut bs pes fes des ses reqs hasd f d name desc0) := by
  have hfd : ¬ f = d := by
    intro hh
    rw [hh] at hfield
    rw [dMem_eq_isSome, hfield] at hdnot
    simp at hdnot
  have hpm : dMem bs "properties" = true := by
    rw [dMem_eq_isSome, hprops]; rfl
  have i1 : ∀ v, dGet (dSet bs "properties" v) "required"
      = some (PyVal.lst reqs) := fun v => by
    rw [dGet_dSet_ne _ _ _ _ (by decide), hreq]
  have i2 : ∀ v, dGet (dSet bs "properties" v) "$defs"
      = some (PyVal.dict des) := fun v => by
    rw [dGet_dSet_ne _ _ _ _ (by decide), hdefs]
  have i2r : ∀ v w, dGet (dSet (dSet bs "properties" v) "required" w) "$defs"
      = some (PyVal.dict des) := fun v w => by
    rw [dGet_dSet_ne _ _ _ _ (by decide), i2]
  have iselfp : ∀ es v, dGet (dSet es "properties" v) "properties" = some v :=
    fun es v => dGet_dSet_self es "properties" v
  have i3 : ∀ es v w, dGet (dSet (dSet es "properties" v) "$defs" w)
      "properties" = some v := fun es v w => by
    rw [dGet_dSet_ne _ _ _ _ (by decide), iselfp]
  have i3r : ∀ es v u w, dGet (dSet (dSet (dSet es "properties" v)
      "required" u) "$defs" w) "properties" = some v := fun es v u w => by
    rw [dGet_dSet_ne _ _ _ _ (by decide), dGet_dSet_ne _ _ _ _ (by decide),
      iselfp]
  have i5 : ∀ v w, dGet (dSet (dSet pes d v) d w) f
      = some (PyVal.dict fes) := fun v w => by
    rw [dGet_dSet_ne _ _ _ _ hfd, dGet_dSet_ne _ _ _ _ hfd, hfield]
  have i7 : ∀ v, dGet (dSet fes "description" v) "items" = dGet fes "items" :=
    fun v => dGet_dSet_ne _ _ _ _ (by decide)
  have hitems' : (dGet fes "items").isSome = true := by
    rw [← dMem_eq_isSome]; exact hitems
  have hdnot' : (dGet pes d).isSome = false := by
    rw [← dMem_eq_isSome]; exact hdnot
  have hpm' : (dGet bs "properties").isSome = true := by
    rw [← dMem_eq_isSome]; exact hpm
  simp only [patchBinding, hresolver, bind, Option.bind, getK, setK, popK,
    memK, pure, hprops, hpm', if_true, hdnot', dMem_eq_isSome, i1, i2, i2r,
    iselfp, i3, i3r, i5, i7, hdesc, hitems', pyStr, hdreq, Option.isSome_some,
    patchedOut]
  cases hasd with
  | false => rfl
  | true =>
      have hlr : listRemoveStr (PyVal.lst reqs) d
          = some (PyVal.lst (removeFirstStr reqs d)) := by
        simp [listRemoveStr, hdreq]
      simp only [hlr]
      simp

/-- The single-binding instance of the patcher trace. -/
theorem custom_single_trace (cls : ClsInfo) (f d name desc0 : String)
    (bs pes fes des ses : List (String × PyVal)) (reqs : List PyVal)
    (hasd : Bool)
    (hextract : extract_defaults_fields cls = [(f, ⟨d⟩)])
    (hresolver : get_inner_type_from_list_annotation cls f
      = some ⟨name, some (PyVal.dict ses)⟩)
    (hprops : dGet bs "properties" = some (PyVal.dict pes))
    (hdnot : dMem pes d = false)
    (hreq : dGet bs "required" = some (PyVal.lst reqs))
    (hdreq : reqs.any (fun e => match e with
        | PyVal.str s => s = d
        | _ => false) = hasd)
    (hfield : dGet pes f = some (PyVal.dict fes))
    (hdesc : dGet fes "description" = some (PyVal.str desc0))
    (hitems : dMem fes "items" = true)
    (hdefs : dGet bs "$defs" = some (PyVal.dict des)) :
    custom_model_json_schema cls (PyVal.dict bs)
      = some (patchedOut bs pes fes des ses reqs hasd f d name desc0) := by
  unfold custom_model_json_schema
  rw [hextract]
  simp only [patchAll,
    patchBinding_trace cls f d name desc0 bs pes fes des ses reqs hasd
      hresolver hprops hdnot hreq hdreq hfield hdesc hitems hdefs]

/-! ### The annotation extractor -/

theorem extractLoop_eq_filterMap (l : List (String × Ann)) :
    extractLoop l = l.filterMap (fun e =>
      match e.2 with
      | Ann.annotated _ metas =>
          (firstSupports metas).map (fun info => (e.1, info))
      | _ => none) := by
  induction l with
  | nil => rfl
  | cons e rest ih =>
      obtain ⟨field_name, annotation⟩ := e
      cases annotation with
      | annotated base metas =>
          cases metas with
          | nil => simp [extractLoop, firstSupports, List.filterMap_cons, ih]
          | cons m ms =>
              cases hfs : firstSupports (m :: ms) with
              | none =>
                  simp [extractLoop, hfs, List.filterMap_cons, ih]
              | some info =>
                  simp [extractLoop, hfs, List.filterMap_cons, ih]
      | listOf t => simp [extractLoop, List.filterMap_cons, ih]
      | otherAnn => simp [extractLoop, List.filterMap_cons, ih]

/-- C6: the annotation extractor returns exactly the declared fields
whose annotation carries a `SupportsDefaults` marker, each paired with
its (first) marker, in declaration order; and when the model's type
hints cannot be resolved it returns the empty sequence instead of
raising. -/
theorem extractor_returns_exactly_marked_fields (cls : ClsInfo) :
    (cls.hints = none → extract_defaults_fields cls = [])
    ∧ (∀ hints, cls.hints = some hints →
        extract_defaults_fields cls = hints.filterMap (fun e =>
          match e.2 with
          | Ann.annotated _ metas =>
              (firstSupports metas).map (fun info => (e.1, info))
          | _ => none)) := by
  constructor
  · intro h
    simp [extract_defaults_fields, h, extractLoop]
  · intro hints h
    simp [extract_defaults_fields, h, extractLoop_eq_filterMap]

/-- Witness for `extractor_returns_exactly_marked_fields`: the test
model yields its one marked field, and an unresolvable model yields
nothing. -/
theorem extractor_returns_exactly_marked_fields_witness :
    ((unresolvedCls.hints = none → extract_defaults_fields unresolvedCls = [])
      ∧ (∀ hints, unresolvedCls.hints = some hints →
          extract_defaults_fields unresolvedCls = hints.filterMap (fun e =>
            match e.2 with
            | Ann.annotated _ metas =>
                (firstSupports metas).map (fun info => (e.1, info))
            | _ => none)))
    ∧ ((sampleCls.hints = none → extract_defaults_fields sampleCls = [])
      ∧ (∀ hints, sampleCls.hints = some hints →
          extract_defaults_fields sampleCls = hints.filterMap (fun e =>
            match e.2 with
            | Ann.annotated _ metas =>
                (firstSupports metas).map (fun info => (e.1, info))
            | _ => none)))
    ∧ extract_defaults_fields unresolvedCls = []
    ∧ extract_defaults_fields sampleCls = [("inners", ⟨"inners_defaults"⟩)] :=
  ⟨extractor_returns_exactly_marked_fields unresolvedCls,
    extractor_returns_exactly_marked_fields sampleCls, rfl, rfl⟩

/-! ### Keys of an updated mapping -/

theorem dMem_iff_mem_keys (es : List (String × PyVal)) (k : String) :
    dMem es k = true ↔ k ∈ es.map Prod.fst := by
  induction es with
  | nil => simp [dMem]
  | cons e rest ih =>
      rw [dMem_cons]
      constructor
      · intro hh
        simp only [Bool.or_eq_true, decide_eq_true_eq] at hh
        rcases hh with hh | hh
        · simp [hh]
        · simp [ih.mp hh]
      · intro hh
        simp only [List.map_cons, List.mem_cons] at hh
        rcases hh with hh | hh
        · simp [hh]
        · simp [ih.mpr hh]

theorem keys_dSet_of_mem (es : List (String × PyVal)) (k : String)
    (v : PyVal) (h : dMem es k = true) :
    (dSet es k v).map Prod.fst = es.map Prod.fst := by
  unfold dSet
  rw [if_pos h, List.map_map]
  apply List.map_congr_left
  intro e _
  by_cases he : e.1 = k <;> simp [he]

theorem keys_dSet_of_not_mem (es : List (String × PyVal)) (k : String)
    (v : PyVal) (h : dMem es k = false) :
    (dSet es k v).map Prod.fst = es.map Prod.fst ++ [k] := by
  unfold dSet
  rw [if_neg (by simp [h]), List.map_append]
  rfl

theorem count_keys_dSet (es : List (String × PyVal)) (k : String)
    (v : PyVal) (h : (es.map Prod.fst).Nodup) :
    ((dSet es k v).map Prod.fst).count k = 1 := by
  by_cases hm : dMem es k = true
  · rw [keys_dSet_of_mem es k v hm]
    have hk : k ∈ es.map Prod.fst := (dMem_iff_mem_keys es k).mp hm
    exact List.count_eq_one_of_mem h hk
  · rw [keys_dSet_of_not_mem es k v (Bool.eq_false_iff.mpr hm)]
    have hk : k ∉ es.map Prod.fst := by
      intro hh
      exact hm ((dMem_iff_mem_keys es k).mpr hh)
    rw [List.count_append]
    simp [List.count_eq_zero_of_not_mem hk]

/-! ### The registered partial variant (schema patcher) -/

/-- C3 (amended): the partial variant registered under
`"Partial" + name` is the inner type's full schema fragment with the
`required` constraint removed and with its `title` and `description`
overwritten by the synthesized name and merge note; every other entry —
in particular every property definition — is preserved unchanged, and a
later registration for the same inner type overwrites rather than
accumulates (the definitions key stays unique). -/
theorem partial_variant_content (cls : ClsInfo) (f d name desc0 : String)
    (bs pes fes des ses : List (String × PyVal)) (reqs : List PyVal)
    (hasd : Bool)
    (hextract : extract_defaults_fields cls = [(f, ⟨d⟩)])
    (hresolver : get_inner_type_from_list_annotation cls f
      = some ⟨name, some (PyVal.dict ses)⟩)
    (hprops : dGet bs "properties" = some (PyVal.dict pes))
    (hdnot : dMem pes d = false)
    (hreq : dGet bs "required" = some (PyVal.lst reqs))
    (hdreq : reqs.any (fun e => match e with
        | PyVal.str s => s = d
        | _ => false) = hasd)
    (hfield : dGet pes f = some (PyVal.dict fes))
    (hdesc : dGet fes "description" = some (PyVal.str desc0))
    (hitems : dMem fes "items" = true)
    (hdefs : dGet bs "$defs" = some (PyVal.dict des)) :
    ∃ pv : List (String × PyVal),
      ((custom_model_json_schema cls (PyVal.dict bs)).bind (fun out =>
          (getK out "$defs").bind (fun defs => getK defs ("Partial" ++ name))))
        = some (PyVal.dict pv)
      ∧ dGet pv "required" = none
      ∧ dGet pv "title" = some (PyVal.str ("Partial" ++ name))
      ∧ dGet pv "description" = some (PyVal.str (partialVariantDesc name))
      ∧ (∀ k, k ≠ "required" → k ≠ "title" → k ≠ "description" →
          dGet pv k = dGet ses k)
      ∧ ((des.map Prod.fst).Nodup →
          ∀ odes, (custom_model_json_schema cls (PyVal.dict bs)).bind
              (fun out => getK out "$defs") = some (PyVal.dict odes) →
            (odes.map Prod.fst).count ("Partial" ++ name) = 1) := by
  have htrace := custom_single_trace cls f d name desc0 bs pes fes des ses
    reqs hasd hextract hresolver hprops hdnot hreq hdreq hfield hdesc
    hitems hdefs
  have hdefsget : getK
      (patchedOut bs pes fes des ses reqs hasd f d name desc0) "$defs"
      = some (PyVal.dict (dSet des ("Partial" ++ name)
          (PyVal.dict (dSet (dSet (dPop ses "required") "title"
            (PyVal.str ("Partial" ++ name))) "description"
            (PyVal.str (partialVariantDesc name)))))) := by
    simp only [patchedOut, getK]
    rw [dGet_dSet_ne _ _ _ _ (by decide), dGet_dSet_ne _ _ _ _ (by decide),
      dGet_dSet_self]
  refine ⟨dSet (dSet (dPop ses "required") "title"
      (PyVal.str ("Partial" ++ name))) "description"
      (PyVal.str (partialVariantDesc name)), ?_, ?_, ?_, ?_, ?_, ?_⟩
  · rw [htrace]
    simp only [Option.bind]
    rw [hdefsget]
    simp only [getK]
    rw [dGet_dSet_self]
  · rw [dGet_dSet_ne _ _ _ _ (by decide), dGet_dSet_ne _ _ _ _ (by decide),
      dGet_dPop_self]
  · rw [dGet_dSet_ne _ _ _ _ (by decide), dGet_dSet_self]
  · rw [dGet_dSet_self]
  · intro k h1 h2 h3
    rw [dGet_dSet_ne _ _ _ _ h3, dGet_dSet_ne _ _ _ _ h2,
      dGet_dPop_ne _ _ _ h1]
  · intro hnd odes hodes
    rw [htrace] at hodes
    simp only [Option.bind] at hodes
    rw [hdefsget] at hodes
    have hX := PyVal.dict.inj (Option.some.inj hodes)
    rw [← hX]
    exact count_keys_dSet des _ _ hnd

/-- C3 counterexample: on the test model, the registered partial
variant's `title` is `"PartialInner"` while the full schema fragment
with only `required` removed keeps the title `"Inner"` — the patcher
also overwrites `title` (and `description`), so the variant is not the
full fragment with only the required constraint removed. -/
theorem partial_variant_not_full_minus_required :
    ((custom_model_json_schema sampleCls sampleOuterBase).bind (fun out =>
        (getK out "$defs").bind (fun defs => getK defs "PartialInner"))).bind
      (fun pv => getK pv "title")
      = some (PyVal.str "PartialInner")
    ∧ (popK sampleInnerSchema "required").bind (fun v => getK v "title")
        = some (PyVal.str "Inner")
    ∧ ("PartialInner" : String) ≠ "Inner" :=
  ⟨rfl, rfl, by decide⟩

/-- Witness for `partial_variant_content` on the test model. -/
theorem partial_variant_content_witness :
    ∃ pv : List (String × PyVal),
      ((custom_model_json_schema sampleCls (PyVal.dict sampleOuterEntries)).bind
          (fun out => (getK out "$defs").bind
            (fun defs => getK defs ("Partial" ++ "Inner"))))
        = some (PyVal.dict pv)
      ∧ dGet pv "required" = none
      ∧ dGet pv "title" = some (PyVal.str ("Partial" ++ "Inner"))
      ∧ dGet pv "description" = some (PyVal.str (partialVariantDesc "Inner"))
      ∧ (∀ k, k ≠ "required" → k ≠ "title" → k ≠ "description" →
          dGet pv k = dGet sampleInnerEntries k)
      ∧ ((([("Inner", sampleInnerSchema)] :
            List (String × PyVal)).map Prod.fst).Nodup →
          ∀ odes, (custom_model_json_schema sampleCls
              (PyVal.dict sampleOuterEntries)).bind
              (fun out => getK out "$defs") = some (PyVal.dict odes) →
            (odes.map Prod.fst).count ("Partial" ++ "Inner") = 1) :=
  partial_variant_content sampleCls "inners" "inners_defaults" "Inner"
    "The inner list" sampleOuterEntries
    [("inners", PyVal.dict [("description", PyVal.str "The inner list"),
        ("items", PyVal.dict [("$ref", PyVal.str "#/$defs/Inner")]),
        ("title", PyVal.str "Inners"), ("type", PyVal.str "array")]),
      ("name", PyVal.dict [("default", PyVal.str "test"),
        ("title", PyVal.str "Name"), ("type", PyVal.str "string")])]
    [("description", PyVal.str "The inner list"),
      ("items", PyVal.dict [("$ref", PyVal.str "#/$defs/Inner")]),
      ("title", PyVal.str "Inners"), ("type", PyVal.str "array")]
    [("Inner", sampleInnerSchema)] sampleInnerEntries [PyVal.str "inners"]
    false rfl rfl rfl rfl rfl rfl rfl rfl rfl rfl

theorem anyStr_map (l : List String) (d : String) :
    ((l.map PyVal.str).any (fun e => match e with
      | PyVal.str s => s = d
      | _ => false)) = l.any (fun s => s = d) := by
  induction l with
  | nil => rfl
  | cons n rest ih => simp [ih]

theorem removeFirstStr_any_false (names : List String) (d : String)
    (hnd : names.Nodup) :
    ((removeFirstStr (names.map PyVal.str) d).any (fun e => match e with
      | PyVal.str s => s = d
      | _ => false)) = false := by
  induction names with
  | nil => rfl
  | cons n rest ih =>
      simp only [List.map_cons, removeFirstStr]
      simp only [List.nodup_cons] at hnd
      by_cases h : n = d
      · rw [if_pos h]
        rw [anyStr_map, List.any_eq_false]
        intro s hs
        simp only [decide_eq_true_eq]
        intro hh
        rw [hh, ← h] at hs
        exact hnd.1 hs
      · rw [if_neg h]
        simp only [List.any_cons]
        rw [ih hnd.2]
        simp [h]

/-- C5: on a generator-shaped baseline for a model with one
defaults-bearing list field whose inner type exposes a schema, the
patched document registers a `"Partial" + name` definitions entry with
no required list; maps the defaults key to a nullable reference to that
partial variant with default null; keeps the defaults key out of the
schema's required set; rewrites the list field's items to an alternative
of exactly the partial-variant reference and the full inner-type
reference; and appends (never replaces) the merge note to the list
field's existing description. -/
theorem patched_schema_shape (cls : ClsInfo) (f d name desc0 : String)
    (bs pes fes des ses : List (String × PyVal)) (names : List String)
    (hasd : Bool)
    (hextract : extract_defaults_fields cls = [(f, ⟨d⟩)])
    (hresolver : get_inner_type_from_list_annotation cls f
      = some ⟨name, some (PyVal.dict ses)⟩)
    (hprops : dGet bs "properties" = some (PyVal.dict pes))
    (hdnot : dMem pes d = false)
    (hreq : dGet bs "required"
      = some (PyVal.lst (names.map PyVal.str)))
    (hnodup : names.Nodup)
    (hdreq : (names.map PyVal.str).any (fun e => match e with
        | PyVal.str s => s = d
        | _ => false) = hasd)
    (hfield : dGet pes f = some (PyVal.dict fes))
    (hdesc : dGet fes "description" = some (PyVal.str desc0))
    (hitems : dMem fes "items" = true)
    (hdefs : dGet bs "$defs" = some (PyVal.dict des)) :
    ∃ out, custom_model_json_schema cls (PyVal.dict bs) = some out
    ∧ (∃ pv, (getK out "$defs").bind
          (fun defs => getK defs ("Partial" ++ name))
        = some (PyVal.dict pv) ∧ dGet pv "required" = none)
    ∧ (getK out "properties").bind (fun props => getK props d)
        = some (refDefaultsProp f d name)
    ∧ getK (refDefaultsProp f d name) "anyOf"
        = some (PyVal.lst
            [PyVal.dict [("$ref", PyVal.str ("#/$defs/Partial" ++ name))],
              PyVal.dict [("type", PyVal.str "null")]])
    ∧ getK (refDefaultsProp f d name) "default" = some PyVal.pynone
    ∧ (∃ oreq, getK out "required" = some (PyVal.lst oreq)
        ∧ oreq.any (fun e => match e with
            | PyVal.str s => s = d
            | _ => false) = false)
    ∧ ((getK out "properties").bind (fun props => getK props f)).bind
        (fun frag => getK frag "items") = some (itemsFragment name)
    ∧ getK (itemsFragment name) "anyOf"
        = some (PyVal.lst
            [PyVal.dict [("$ref", PyVal.str ("#/$defs/Partial" ++ name))],
              PyVal.dict [("$ref", PyVal.str ("#/$defs/" ++ name))]])
    ∧ ((getK out "properties").bind (fun props => getK props f)).bind
        (fun frag => getK frag "description")
        = some (PyVal.str (pyStrip (desc0 ++ " " ++ mergeNote d name))) := by
  have hfd : ¬ f = d := by
    intro hh
    rw [hh] at hfield
    rw [dMem_eq_isSome, hfield] at hdnot
    simp at hdnot
  have htrace := custom_single_trace cls f d name desc0 bs pes fes des ses
    (names.map PyVal.str) hasd hextract hresolver hprops hdnot hreq hdreq
    hfield hdesc hitems hdefs
  refine ⟨patchedOut bs pes fes des ses (names.map PyVal.str) hasd f d name
    desc0, htrace, ?_, ?_, rfl, rfl, ?_, ?_, rfl, ?_⟩
  · refine ⟨dSet (dSet (dPop ses "required") "title"
      (PyVal.str ("Partial" ++ name))) "description"
      (PyVal.str (partialVariantDesc name)), ?_, ?_⟩
    · have hdefsget : getK (patchedOut bs pes fes des ses
          (names.map PyVal.str) hasd f d name desc0) "$defs"
          = some (PyVal.dict (dSet des ("Partial" ++ name)
              (PyVal.dict (dSet (dSet (dPop ses "required") "title"
                (PyVal.str ("Partial" ++ name))) "description"
                (PyVal.str (partialVariantDesc name)))))) := by
        simp only [patchedOut, getK]
        rw [dGet_dSet_ne _ _ _ _ (by decide), dGet_dSet_ne _ _ _ _ (by decide),
          dGet_dSet_self]
      rw [hdefsget]
      simp only [Option.bind, getK]
      rw [dGet_dSet_self]
    · rw [dGet_dSet_ne _ _ _ _ (by decide), dGet_dSet_ne _ _ _ _ (by decide),
        dGet_dPop_self]
  · simp only [patchedOut, getK]
    rw [dGet_dSet_self]
    simp only [Option.bind, getK]
    rw [dGet_dSet_ne _ _ _ _ (Ne.symm hfd), dGet_dSet_self]
  · refine ⟨if hasd then removeFirstStr (names.map PyVal.str) d
        else names.map PyVal.str, ?_, ?_⟩
    · simp only [patchedOut, getK]
      rw [dGet_dSet_ne _ _ _ _ (by decide), dGet_dSet_ne _ _ _ _ (by decide),
        dGet_dSet_ne _ _ _ _ (by decide)]
      cases hasd with
      | false =>
          simp only [if_false, Bool.false_eq_true]
          rw [dGet_dSet_ne _ _ _ _ (by decide), hreq]
      | true =>
          simp only [if_true]
          rw [dGet_dSet_self]
    · cases hasd with
      | false => simpa using hdreq
      | true => simpa using removeFirstStr_any_false names d hnodup
  · simp only [patchedOut, getK]
    rw [dGet_dSet_self]
    simp only [Option.bind, getK]
    rw [dGet_dSet_self]
    simp only [Option.bind, getK]
    rw [dGet_dSet_self]
  · simp only [patchedOut, getK]
    rw [dGet_dSet_self]
    simp only [Option.bind, getK]
    rw [dGet_dSet_self]
    simp only [Option.bind, getK]
    rw [dGet_dSet_ne _ _ _ _ (by decide), dGet_dSet_self]

/-- Witness for `patched_schema_shape` on the test model, together with
the concrete patched description showing the merge note appended after
the original text. -/
theorem patched_schema_shape_witness :
    (∃ out, custom_model_json_schema sampleCls (PyVal.dict sampleOuterEntries)
        = some out
    ∧ (∃ pv, (getK out "$defs").bind
          (fun defs => getK defs ("Partial" ++ "Inner"))
        = some (PyVal.dict pv) ∧ dGet pv "required" = none)
    ∧ (getK out "properties").bind
        (fun props => getK props "inners_defaults")
        = some (refDefaultsProp "inners" "inners_defaults" "Inner")
    ∧ getK (refDefaultsProp "inners" "inners_defaults" "Inner") "anyOf"
        = some (PyVal.lst
            [PyVal.dict [("$ref", PyVal.str ("#/$defs/Partial" ++ "Inner"))],
              PyVal.dict [("type", PyVal.str "null")]])
    ∧ getK (refDefaultsProp "inners" "inners_defaults" "Inner") "default"
        = some PyVal.pynone
    ∧ (∃ oreq, getK out "required" = some (PyVal.lst oreq)
        ∧ oreq.any (fun e => match e with
            | PyVal.str s => s = "inners_defaults"
            | _ => false) = false)
    ∧ ((getK out "properties").bind (fun props => getK props "inners")).bind
        (fun frag => getK frag "items") = some (itemsFragment "Inner")
    ∧ getK (itemsFragment "Inner") "anyOf"
        = some (PyVal.lst
            [PyVal.dict [("$ref", PyVal.str ("#/$defs/Partial" ++ "Inner"))],
              PyVal.dict [("$ref", PyVal.str ("#/$defs/" ++ "Inner"))]])
    ∧ ((getK out "properties").bind (fun props => getK props "inners")).bind
        (fun frag => getK frag "description")
        = some (PyVal.str (pyStrip ("The inner list" ++ " " ++
            mergeNote "inners_defaults" "Inner"))))
    ∧ ((custom_model_json_schema sampleCls sampleOuterBase).bind (fun out =>
        ((getK out "properties").bind (fun p => getK p "inners")).bind
          (fun frag => getK frag "description")))
        = some (PyVal.str ("The inner list Each item is merged with " ++
            "inners_defaults before validation. Individual items can be " ++
            "partial, but after merging must satisfy the full Inner " ++
            "schema.")) :=
  ⟨patched_schema_shape sampleCls "inners" "inners_defaults" "Inner"
    "The inner list" sampleOuterEntries
    [("inners", PyVal.dict [("description", PyVal.str "The inner list"),
        ("items", PyVal.dict [("$ref", PyVal.str "#/$defs/Inner")]),
        ("title", PyVal.str "Inners"), ("type", PyVal.str "array")]),
      ("name", PyVal.dict [("default", PyVal.str "test"),
        ("title", PyVal.str "Name"), ("type", PyVal.str "string")])]
    [("description", PyVal.str "The inner list"),
      ("items", PyVal.dict [("$ref", PyVal.str "#/$defs/Inner")]),
      ("title", PyVal.str "Inners"), ("type", PyVal.str "array")]
    [("Inner", sampleInnerSchema)] sampleInnerEntries ["inners"] false
    rfl rfl rfl rfl rfl (by decide) rfl rfl rfl rfl rfl,
   by rfl⟩

/-- C4: patching is a pure function of the model type and the baseline
document — two runs on independently generated, structurally equal
baselines give structurally equal results — and a definitions entry
left by an earlier registration for the same inner type is overwritten,
not accumulated: the registered entry equals the freshly derived partial
variant whatever the prior entry held, and the definitions key stays
unique. -/
theorem schema_patch_deterministic_and_overwrites (cls : ClsInfo)
    (f d name desc0 : String)
    (bs pes fes des ses : List (String × PyVal)) (reqs : List PyVal)
    (hasd : Bool)
    (hextract : extract_defaults_fields cls = [(f, ⟨d⟩)])
    (hresolver : get_inner_type_from_list_annotation cls f
      = some ⟨name, some (PyVal.dict ses)⟩)
    (hprops : dGet bs "properties" = some (PyVal.dict pes))
    (hdnot : dMem pes d = false)
    (hreq : dGet bs "required" = some (PyVal.lst reqs))
    (hdreq : reqs.any (fun e => match e with
        | PyVal.str s => s = d
        | _ => false) = hasd)
    (hfield : dGet pes f = some (PyVal.dict fes))
    (hdesc : dGet fes "description" = some (PyVal.str desc0))
    (hitems : dMem fes "items" = true)
    (hdefs : dGet bs "$defs" = some (PyVal.dict des)) :
    (∀ s1 s2 : PyVal, s1 = s2 →
        custom_model_json_schema cls s1 = custom_model_json_schema cls s2)
    ∧ (∀ prior, dGet des ("Partial" ++ name) = some prior →
        ((custom_model_json_schema cls (PyVal.dict bs)).bind (fun out =>
            (getK out "$defs").bind
              (fun defs => getK defs ("Partial" ++ name))))
          = some (PyVal.dict (dSet (dSet (dPop ses "required") "title"
              (PyVal.str ("Partial" ++ name))) "description"
              (PyVal.str (partialVariantDesc name))))
        ∧ ((des.map Prod.fst).Nodup →
            ∀ odes, (custom_model_json_schema cls (PyVal.dict bs)).bind
                (fun out => getK out "$defs") = some (PyVal.dict odes) →
              (odes.map Prod.fst).count ("Partial" ++ name) = 1)) := by
  have htrace := custom_single_trace cls f d name desc0 bs pes fes des ses
    reqs hasd hextract hresolver hprops hdnot hreq hdreq hfield hdesc
    hitems hdefs
  have hdefsget : getK
      (patchedOut bs pes fes des ses reqs hasd f d name desc0) "$defs"
      = some (PyVal.dict (dSet des ("Partial" ++ name)
          (PyVal.dict (dSet (dSet (dPop ses "required") "title"
            (PyVal.str ("Partial" ++ name))) "description"
            (PyVal.str (partialVariantDesc name)))))) := by
    simp only [patchedOut, getK]
    rw [dGet_dSet_ne _ _ _ _ (by decide), dGet_dSet_ne _ _ _ _ (by decide),
      dGet_dSet_self]
  refine ⟨fun s1 s2 h => by rw [h], fun prior _ => ⟨?_, ?_⟩⟩
  · rw [htrace]
    simp only [Option.bind]
    rw [hdefsget]
    simp only [getK]
    rw [dGet_dSet_self]
  · intro hnd odes hodes
    rw [htrace] at hodes
    simp only [Option.bind] at hodes
    rw [hdefsget] at hodes
    have hX := PyVal.dict.inj (Option.some.inj hodes)
    rw [← hX]
    exact count_keys_dSet des _ _ hnd

/-- Witness for `schema_patch_deterministic_and_overwrites` on a
baseline already holding a stale `PartialInner` registration. -/
theorem schema_patch_deterministic_and_overwrites_witness :
    (∀ s1 s2 : PyVal, s1 = s2 →
        custom_model_json_schema sampleCls s1
          = custom_model_json_schema sampleCls s2)
    ∧ (∀ prior, dGet [("Inner", sampleInnerSchema),
          ("PartialInner", PyVal.dict [("stale", PyVal.bool true)])]
          ("Partial" ++ "Inner") = some prior →
        ((custom_model_json_schema sampleCls
            (PyVal.dict sampleOuterEntriesPrior)).bind (fun out =>
            (getK out "$defs").bind
              (fun defs => getK defs ("Partial" ++ "Inner"))))
          = some (PyVal.dict (dSet (dSet (dPop sampleInnerEntries "required")
              "title" (PyVal.str ("Partial" ++ "Inner"))) "description"
              (PyVal.str (partialVariantDesc "Inner"))))
        ∧ ((([("Inner", sampleInnerSchema),
              ("PartialInner", PyVal.dict [("stale", PyVal.bool true)])] :
              List (String × PyVal)).map Prod.fst).Nodup →
            ∀ odes, (custom_model_json_schema sampleCls
                (PyVal.dict sampleOuterEntriesPrior)).bind
                (fun out => getK out "$defs") = some (PyVal.dict odes) →
              (odes.map Prod.fst).count ("Partial" ++ "Inner") = 1)) :=
  schema_patch_deterministic_and_overwrites sampleCls "inners"
    "inners_defaults" "Inner" "The inner list" sampleOuterEntriesPrior
    [("inners", PyVal.dict [("description", PyVal.str "The inner list"),
        ("items", PyVal.dict [("$ref", PyVal.str "#/$defs/Inner")]),
        ("title", PyVal.str "Inners"), ("type", PyVal.str "array")]),
      ("name", PyVal.dict [("default", PyVal.str "test"),
        ("title", PyVal.str "Name"), ("type", PyVal.str "string")])]
    [("description", PyVal.str "The inner list"),
      ("items", PyVal.dict [("$ref", PyVal.str "#/$defs/Inner")]),
      ("title", PyVal.str "Inners"), ("type", PyVal.str "array")]
    [("Inner", sampleInnerSchema),
      ("PartialInner", PyVal.dict [("stale", PyVal.bool true)])]
    sampleInnerEntries [PyVal.str "inners"] false
    rfl rfl rfl rfl rfl rfl rfl rfl rfl rfl

/-! ### Reference collection lemmas -/

theorem mem_refHead (k : String) (v : PyVal) (r : String) :
    r ∈ refHead k v ↔ (k = "$ref" ∧ v = PyVal.str r) := by
  unfold refHead
  by_cases hk : k = "$ref"
  · rw [if_pos hk]
    cases v <;> simp [hk]
    exact eq_comm
  · rw [if_neg hk]
    simp [hk]

theorem collectRefs_dict_cons (k : String) (v : PyVal)
    (rest : List (String × PyVal)) (r : String) :
    r ∈ collectRefs (PyVal.dict ((k, v) :: rest)) ↔
      ((k = "$ref" ∧ v = PyVal.str r) ∨ r ∈ collectRefs v
        ∨ r ∈ collectRefs (PyVal.dict rest)) := by
  rw [show collectRefs (PyVal.dict ((k, v) :: rest))
      = refHead k v ++ collectRefs v ++ collectRefs (PyVal.dict rest) from by
    rw [collectRefs]]
  simp only [List.mem_append, or_assoc, mem_refHead]

theorem collectRefs_lst_mem (xs : List PyVal) (r : String) :
    r ∈ collectRefs (PyVal.lst xs) ↔ ∃ x ∈ xs, r ∈ collectRefs x := by
  induction xs with
  | nil => simp [collectRefs]
  | cons x rest ih =>
      rw [show collectRefs (PyVal.lst (x :: rest))
          = collectRefs x ++ collectRefs (PyVal.lst rest) from by
        simp [collectRefs]]
      simp only [List.mem_append, ih, List.mem_cons]
      constructor
      · rintro (hh | ⟨y, hy, hr⟩)
        · exact ⟨x, Or.inl rfl, hh⟩
        · exact ⟨y, Or.inr hy, hr⟩
      · rintro ⟨y, hy | hy, hr⟩
        · subst hy
          exact Or.inl hr
        · exact Or.inr ⟨y, hy, hr⟩

theorem refs_dSet_sub (es : List (String × PyVal)) (k : String) (v : PyVal)
    (r : String) (h : r ∈ collectRefs (PyVal.dict (dSet es k v))) :
    r ∈ collectRefs (PyVal.dict es) ∨ r ∈ collectRefs v
      ∨ (k = "$ref" ∧ v = PyVal.str r) := by
  unfold dSet at h
  by_cases hm : dMem es k
  · rw [if_pos hm] at h
    clear hm
    induction es with
    | nil => simp [collectRefs] at h
    | cons e rest ih =>
        obtain ⟨k0, v0⟩ := e
        simp only [List.map_cons] at h
        by_cases hk0 : k0 = k
        · rw [if_pos (by simp [hk0])] at h
          rw [collectRefs_dict_cons] at h
          rcases h with ⟨h1, h2⟩ | h | h
          · exact Or.inr (Or.inr ⟨h1, h2⟩)
          · exact Or.inr (Or.inl h)
          · rcases ih h with h' | h' | h'
            · refine Or.inl ?_
              rw [collectRefs_dict_cons]
              exact Or.inr (Or.inr h')
            · exact Or.inr (Or.inl h')
            · exact Or.inr (Or.inr h')
        · rw [if_neg (by simp [hk0])] at h
          rw [collectRefs_dict_cons] at h
          rcases h with ⟨h1, h2⟩ | h | h
          · refine Or.inl ?_
            rw [collectRefs_dict_cons]
            exact Or.inl ⟨h1, h2⟩
          · refine Or.inl ?_
            rw [collectRefs_dict_cons]
            exact Or.inr (Or.inl h)
          · rcases ih h with h' | h' | h'
            · refine Or.inl ?_
              rw [collectRefs_dict_cons]
              exact Or.inr (Or.inr h')
            · exact Or.inr (Or.inl h')
            · exact Or.inr (Or.inr h')
  · rw [if_neg hm] at h
    clear hm
    induction es with
    | nil =>
        simp only [List.nil_append] at h
        rw [collectRefs_dict_cons] at h
        rcases h with ⟨h1, h2⟩ | h | h
        · exact Or.inr (Or.inr ⟨h1, h2⟩)
        · exact Or.inr (Or.inl h)
        · simp [collectRefs] at h
    | cons e rest ih =>
        obtain ⟨k0, v0⟩ := e
        rw [List.cons_append, collectRefs_dict_cons] at h
        rcases h with ⟨h1, h2⟩ | h | h
        · refine Or.inl ?_
          rw [collectRefs_dict_cons]
          exact Or.inl ⟨h1, h2⟩
        · refine Or.inl ?_
          rw [collectRefs_dict_cons]
          exact Or.inr (Or.inl h)
        · rcases ih h with h' | h' | h'
          · refine Or.inl ?_
            rw [collectRefs_dict_cons]
            exact Or.inr (Or.inr h')
          · exact Or.inr (Or.inl h')
          · exact Or.inr (Or.inr h')

theorem refs_dPop_sub (es : List (String × PyVal)) (k : String) (r : String)
    (h : r ∈ collectRefs (PyVal.dict (dPop es k))) :
    r ∈ collectRefs (PyVal.dict es) := by
  unfold dPop at h
  induction es with
  | nil => simp [collectRefs] at h
  | cons e rest ih =>
      obtain ⟨k0, v0⟩ := e
      rw [List.filter_cons] at h
      by_cases hk0 : k0 = k
      · simp only [hk0, not_true, decide_False] at h
        rw [collectRefs_dict_cons]
        exact Or.inr (Or.inr (ih (by simpa using h)))
      · simp only [hk0, not_false_iff, decide_True, if_true] at h
        rw [collectRefs_dict_cons] at h ⊢
        rcases h with hh | hh | hh
        · exact Or.inl hh
        · exact Or.inr (Or.inl hh)
        · exact Or.inr (Or.inr (ih hh))

theorem refs_entry_sub (es : List (String × PyVal)) (k : String) (v : PyVal)
    (r : String) (hget : dGet es k = some v)
    (h : r ∈ collectRefs v) : r ∈ collectRefs (PyVal.dict es) := by
  induction es with
  | nil => simp [dGet] at hget
  | cons e rest ih =>
      rw [dGet_cons] at hget
      rw [collectRefs_dict_cons]
      by_cases hk : e.1 = k
      · rw [if_pos hk] at hget
        exact Or.inr (Or.inl ((Option.some.inj hget) ▸ h))
      · rw [if_neg hk] at hget
        exact Or.inr (Or.inr (ih hget))

theorem mem_of_mem_removeFirstStr (xs : List PyVal) (k : String) (x : PyVal)
    (h : x ∈ removeFirstStr xs k) : x ∈ xs := by
  induction xs with
  | nil => simp [removeFirstStr] at h
  | cons y rest ih =>
      unfold removeFirstStr at h
      cases y <;> try dsimp only at h
      case str s =>
        by_cases hs : s = k
        · rw [if_pos hs] at h
          exact List.mem_cons.mpr (Or.inr h)
        · rw [if_neg hs] at h
          rcases List.mem_cons.mp h with hh | hh
          · exact List.mem_cons.mpr (Or.inl hh)
          · exact List.mem_cons.mpr (Or.inr (ih hh))
      all_goals
        rcases List.mem_cons.mp h with hh | hh
        · exact List.mem_cons.mpr (Or.inl hh)
        · exact List.mem_cons.mpr (Or.inr (ih hh))

theorem dGet_some_mem (es : List (String × PyVal)) (k : String) (v : PyVal)
    (h : dGet es k = some v) : (k, v) ∈ es := by
  induction es with
  | nil => simp [dGet] at h
  | cons e rest ih =>
      obtain ⟨k0, v0⟩ := e
      rw [dGet_cons] at h
      by_cases hk : k0 = k
      · rw [if_pos (by simpa using hk)] at h
        have hv := Option.some.inj h
        subst hk
        subst hv
        exact List.mem_cons_self _ _
      · rw [if_neg (by simpa using hk)] at h
        exact List.mem_cons.mpr (Or.inr (ih h))

theorem resolvesIn_mono (keys keys' : List String) (r : String)
    (hsub : ∀ nm ∈ keys, nm ∈ keys')
    (h : resolvesIn keys r = true) : resolvesIn keys' r = true := by
  unfold resolvesIn at h ⊢
  simp only [List.any_eq_true, decide_eq_true_eq] at h ⊢
  obtain ⟨nm, hnm, hr⟩ := h
  exact ⟨nm, hsub nm hnm, hr⟩

theorem mem_keys_dSet_of_mem (es : List (String × PyVal)) (k nm : String)
    (v : PyVal) (h : nm ∈ es.map Prod.fst) :
    nm ∈ (dSet es k v).map Prod.fst := by
  by_cases hm : dMem es k = true
  · rw [keys_dSet_of_mem es k v hm]
    exact h
  · rw [keys_dSet_of_not_mem es k v (Bool.eq_false_iff.mpr hm)]
    exact List.mem_append.mpr (Or.inl h)

theorem self_mem_keys_dSet (es : List (String × PyVal)) (k : String)
    (v : PyVal) : k ∈ (dSet es k v).map Prod.fst := by
  by_cases hm : dMem es k = true
  · rw [keys_dSet_of_mem es k v hm]
    exact (dMem_iff_mem_keys es k).mp hm
  · rw [keys_dSet_of_not_mem es k v (Bool.eq_false_iff.mpr hm)]
    simp

/-- C9: every `$ref` pointer in the patched document — including the
partial-variant and full inner-type references the patcher inserts —
resolves to an entry of the patched document's definitions section,
provided the baseline document's and the inner schema's pointers resolve
in the baseline definitions and the full inner type is registered
there (as the generator guarantees). -/
theorem patched_refs_resolve (cls : ClsInfo) (f d name desc0 : String)
    (bs pes fes des ses : List (String × PyVal)) (reqs : List PyVal)
    (hasd : Bool)
    (hextract : extract_defaults_fields cls = [(f, ⟨d⟩)])
    (hresolver : get_inner_type_from_list_annotation cls f
      = some ⟨name, some (PyVal.dict ses)⟩)
    (hprops : dGet bs "properties" = some (PyVal.dict pes))
    (hdnot : dMem pes d = false)
    (hreq : dGet bs "required" = some (PyVal.lst reqs))
    (hdreq : reqs.any (fun e => match e with
        | PyVal.str s => s = d
        | _ => false) = hasd)
    (hfield : dGet pes f = some (PyVal.dict fes))
    (hdesc : dGet fes "description" = some (PyVal.str desc0))
    (hitems : dMem fes "items" = true)
    (hdefs : dGet bs "$defs" = some (PyVal.dict des))
    (hbase : ∀ r ∈ collectRefs (PyVal.dict bs),
      resolvesIn (des.map Prod.fst) r = true)
    (hinner : ∀ r ∈ collectRefs (PyVal.dict ses),
      resolvesIn (des.map Prod.fst) r = true)
    (hname : name ∈ des.map Prod.fst) :
    ∃ out odes, custom_model_json_schema cls (PyVal.dict bs) = some out
      ∧ getK out "$defs" = some (PyVal.dict odes)
      ∧ ∀ r ∈ collectRefs out, resolvesIn (odes.map Prod.fst) r = true := by
  have htrace := custom_single_trace cls f d name desc0 bs pes fes des ses
    reqs hasd hextract hresolver hprops hdnot hreq hdreq hfield hdesc
    hitems hdefs
  have hdefsget : getK
      (patchedOut bs pes fes des ses reqs hasd f d name desc0) "$defs"
      = some (PyVal.dict (dSet des ("Partial" ++ name)
          (PyVal.dict (dSet (dSet (dPop ses "required") "title"
            (PyVal.str ("Partial" ++ name))) "description"
            (PyVal.str (partialVariantDesc name)))))) := by
    simp only [patchedOut, getK]
    rw [dGet_dSet_ne _ _ _ _ (by decide), dGet_dSet_ne _ _ _ _ (by decide),
      dGet_dSet_self]
  refine ⟨patchedOut bs pes fes des ses reqs hasd f d name desc0,
    dSet des ("Partial" ++ name)
      (PyVal.dict (dSet (dSet (dPop ses "required") "title"
        (PyVal.str ("Partial" ++ name))) "description"
        (PyVal.str (partialVariantDesc name)))),
    htrace, hdefsget, ?_⟩
  set pv : PyVal := PyVal.dict (dSet (dSet (dPop ses "required") "title"
    (PyVal.str ("Partial" ++ name))) "description"
    (PyVal.str (partialVariantDesc name))) with hpv
  set keys2 : List String :=
    (dSet des ("Partial" ++ name) pv).map Prod.fst with hkeys2
  have hkeysub : ∀ nm ∈ des.map Prod.fst, nm ∈ keys2 := fun nm h =>
    mem_keys_dSet_of_mem des ("Partial" ++ name) nm pv h
  have hkey : ("Partial" ++ name) ∈ keys2 :=
    self_mem_keys_dSet des ("Partial" ++ name) pv
  have h_bs : ∀ r, r ∈ collectRefs (PyVal.dict bs) →
      resolvesIn keys2 r = true := fun r hr =>
    resolvesIn_mono _ _ _ hkeysub (hbase r hr)
  have h_ses : ∀ r, r ∈ collectRefs (PyVal.dict ses) →
      resolvesIn keys2 r = true := fun r hr =>
    resolvesIn_mono _ _ _ hkeysub (hinner r hr)
  have h_pes : ∀ r, r ∈ collectRefs (PyVal.dict pes) →
      resolvesIn keys2 r = true := fun r hr =>
    h_bs r (refs_entry_sub bs "properties" _ r hprops hr)
  have h_fes : ∀ r, r ∈ collectRefs (PyVal.dict fes) →
      resolvesIn keys2 r = true := fun r hr =>
    h_pes r (refs_entry_sub pes f _ r hfield hr)
  have h_reqs : ∀ r, r ∈ collectRefs (PyVal.lst reqs) →
      resolvesIn keys2 r = true := fun r hr =>
    h_bs r (refs_entry_sub bs "required" _ r hreq hr)
  have h_des : ∀ r, r ∈ collectRefs (PyVal.dict des) →
      resolvesIn keys2 r = true := fun r hr =>
    h_bs r (refs_entry_sub bs "$defs" _ r hdefs hr)
  have h_rm : ∀ r, r ∈ collectRefs (PyVal.lst (removeFirstStr reqs d)) →
      resolvesIn keys2 r = true := by
    intro r hr
    rw [collectRefs_lst_mem] at hr
    obtain ⟨x, hx, hrx⟩ := hr
    exact h_reqs r ((collectRefs_lst_mem reqs r).mpr
      ⟨x, mem_of_mem_removeFirstStr reqs d x hx, hrx⟩)
  have hres_partial : resolvesIn keys2 ("#/$defs/Partial" ++ name) = true := by
    unfold resolvesIn
    simp only [List.any_eq_true, decide_eq_true_eq]
    refine ⟨"Partial" ++ name, hkey, ?_⟩
    rw [← String.append_assoc]
    rfl
  have hres_full : resolvesIn keys2 ("#/$defs/" ++ name) = true := by
    unfold resolvesIn
    simp only [List.any_eq_true, decide_eq_true_eq]
    exact ⟨name, hkeysub name hname, rfl⟩
  have h_gen : collectRefs (genericDefaultsProp f d) = [] := by
    simp [genericDefaultsProp, collectRefs, refHead]
  have h_ref : collectRefs (refDefaultsProp f d name)
      = ["#/$defs/Partial" ++ name] := by
    simp [refDefaultsProp, collectRefs, refHead]
  have h_itf : collectRefs (itemsFragment name)
      = ["#/$defs/Partial" ++ name, "#/$defs/" ++ name] := by
    simp [itemsFragment, collectRefs, refHead]
  have h_str : ∀ s r, r ∈ collectRefs (PyVal.str s) → False := by
    intro s r hr
    simp [collectRefs] at hr
  have h_pv : ∀ r, r ∈ collectRefs pv → resolvesIn keys2 r = true := by
    intro r hr
    rw [hpv] at hr
    rcases refs_dSet_sub _ _ _ _ hr with hr | hr | ⟨habs, _⟩
    · rcases refs_dSet_sub _ _ _ _ hr with hr | hr | ⟨habs, _⟩
      · exact h_ses r (refs_dPop_sub ses "required" r hr)
      · exact absurd hr (by simp [collectRefs])
      · exact absurd habs (by decide)
    · exact absurd hr (by simp [collectRefs])
    · exact absurd habs (by decide)
  have h_pes1 : ∀ r,
      r ∈ collectRefs (PyVal.dict (dSet pes d (genericDefaultsProp f d))) →
      resolvesIn keys2 r = true := by
    intro r hr
    rcases refs_dSet_sub _ _ _ _ hr with hr | hr | ⟨_, heq⟩
    · exact h_pes r hr
    · rw [h_gen] at hr
      exact absurd hr (List.not_mem_nil r)
    · exact PyVal.noConfusion heq
  have h_pes2 : ∀ r,
      r ∈ collectRefs (PyVal.dict (dSet (dSet pes d (genericDefaultsProp f d))
        d (refDefaultsProp f d name))) →
      resolvesIn keys2 r = true := by
    intro r hr
    rcases refs_dSet_sub _ _ _ _ hr with hr | hr | ⟨_, heq⟩
    · exact h_pes1 r hr
    · rw [h_ref] at hr
      rcases List.mem_singleton.mp hr with rfl
      exact hres_partial
    · exact PyVal.noConfusion heq
  have h_fes2 : ∀ r,
      r ∈ collectRefs (PyVal.dict (dSet (dSet fes "description"
        (PyVal.str (pyStrip (desc0 ++ " " ++ mergeNote d name)))) "items"
        (itemsFragment name))) →
      resolvesIn keys2 r = true := by
    intro r hr
    rcases refs_dSet_sub _ _ _ _ hr with hr | hr | ⟨habs, _⟩
    · rcases refs_dSet_sub _ _ _ _ hr with hr | hr | ⟨habs, _⟩
      · exact h_fes r hr
      · exact absurd hr (by simp [collectRefs])
      · exact absurd habs (by decide)
    · rw [h_itf] at hr
      rcases List.mem_cons.mp hr with rfl | hr
      · exact hres_partial
      · rcases List.mem_singleton.mp hr with rfl
        exact hres_full
    · exact absurd habs (by decide)
  intro r hr
  simp only [patchedOut] at hr
  rcases refs_dSet_sub _ _ _ _ hr with hr | hr | ⟨habs, _⟩
  · rcases refs_dSet_sub _ _ _ _ hr with hr | hr | ⟨habs, _⟩
    · -- refs of bs3
      rcases refs_dSet_sub _ _ _ _ hr with hr | hr | ⟨habs, _⟩
      · -- refs of bs2
        cases hasd with
        | false =>
            simp only [Bool.false_eq_true, if_false] at hr
            rcases refs_dSet_sub _ _ _ _ hr with hr | hr | ⟨habs, _⟩
            · exact h_bs r hr
            · exact h_pes1 r hr
            · exact absurd habs (by decide)
        | true =>
            simp only [if_true] at hr
            rcases refs_dSet_sub _ _ _ _ hr with hr | hr | ⟨habs, _⟩
            · rcases refs_dSet_sub _ _ _ _ hr with hr | hr | ⟨habs, _⟩
              · exact h_bs r hr
              · exact h_pes1 r hr
              · exact absurd habs (by decide)
            · exact h_rm r hr
            · exact absurd habs (by decide)
      · -- refs of the patched $defs value
        rcases refs_dSet_sub _ _ _ _ hr with hr | hr | ⟨_, heq⟩
        · exact h_des r hr
        · exact h_pv r hr
        · exact PyVal.noConfusion heq
      · exact absurd habs (by decide)
    · exact h_pes2 r hr
    · exact absurd habs (by decide)
  · -- refs of the final properties value
    rcases refs_dSet_sub _ _ _ _ hr with hr | hr | ⟨_, heq⟩
    · exact h_pes2 r hr
    · exact h_fes2 r hr
    · exact PyVal.noConfusion heq
  · exact absurd habs (by decide)

/-- Witness for `patched_refs_resolve` on the test model. -/
theorem patched_refs_resolve_witness :
    ∃ out odes, custom_model_json_schema sampleCls
        (PyVal.dict sampleOuterEntries) = some out
      ∧ getK out "$defs" = some (PyVal.dict odes)
      ∧ ∀ r ∈ collectRefs out, resolvesIn (odes.map Prod.fst) r = true :=
  patched_refs_resolve sampleCls "inners" "inners_defaults" "Inner"
    "The inner list" sampleOuterEntries
    [("inners", PyVal.dict [("description", PyVal.str "The inner list"),
        ("items", PyVal.dict [("$ref", PyVal.str "#/$defs/Inner")]),
        ("title", PyVal.str "Inners"), ("type", PyVal.str "array")]),
      ("name", PyVal.dict [("default", PyVal.str "test"),
        ("title", PyVal.str "Name"), ("type", PyVal.str "string")])]
    [("description", PyVal.str "The inner list"),
      ("items", PyVal.dict [("$ref", PyVal.str "#/$defs/Inner")]),
      ("title", PyVal.str "Inners"), ("type", PyVal.str "array")]
    [("Inner", sampleInnerSchema)] sampleInnerEntries [PyVal.str "inners"]
    false rfl rfl rfl rfl rfl rfl rfl rfl rfl rfl
    (by
      intro r hr
      simp only [sampleOuterEntries, sampleInnerSchema, sampleInnerEntries,
        collectRefs, refHead] at hr
      simp at hr
      rw [hr]
      decide)
    (by
      intro r hr
      simp only [sampleInnerEntries, collectRefs, refHead] at hr
      simp at hr)
    (by simp)

/-! ### The merger never raises -/

theorem mergeItemE_eq (dd : List (String × PyVal)) (item : PyVal) :
    mergeItemE dd item = Except.ok (mergeItem dd item) := by
  cases item <;> rfl

theorem mergeItemsE_eq (dd : List (String × PyVal)) (items : List PyVal) :
    mergeItemsE dd items = Except.ok (items.map (mergeItem dd)) := by
  induction items with
  | nil => rfl
  | cons item rest ih =>
      simp [mergeItemsE, mergeItemE_eq, ih]
      rfl

theorem mergeBindingE_eq (res : List (String × PyVal))
    (fb : String × SupportsDefaults) :
    mergeBindingE res fb = Except.ok (mergeBinding res fb) := by
  unfold mergeBindingE mergeBinding
  dsimp only
  split
  · rename_i hc
    obtain ⟨fv, hfv⟩ : ∃ v, dGet res fb.1 = some v := by
      have := hc.1
      rw [dMem_eq_isSome] at this
      exact Option.isSome_iff_exists.mp this
    obtain ⟨dv, hdv⟩ : ∃ v, dGet res fb.2.defaults_field = some v := by
      have := hc.2
      rw [dMem_eq_isSome] at this
      exact Option.isSome_iff_exists.mp this
    rw [hfv, hdv]
    simp only [dGetE, hfv, hdv]
    cases fv <;> cases dv <;>
      simp [mergeItemsE_eq, Except.map, pure, Except.pure, Bind.bind,
        Except.bind]
  · rfl

theorem mergeBindingsE_eq (l : List (String × SupportsDefaults))
    (res : List (String × PyVal)) :
    mergeBindingsE l res = Except.ok (l.foldl mergeBinding res) := by
  induction l generalizing res with
  | nil => rfl
  | cons fb rest ih =>
      simp [mergeBindingsE, mergeBindingE_eq, ih, Bind.bind, Except.bind]

/-- C7 counterexample: on the record
`{"inners": [{"a": 1}], "inners_defaults": 5}` (defaults value is not a
mapping), the merge is skipped but the offending defaults value is *not*
passed through untouched: the defaults key is popped, so the malformed
value never reaches the validation engine. -/
theorem malformed_defaults_value_not_passed_through :
    mergeDefaultsE [("inners", ⟨"inners_defaults"⟩)]
        (PyVal.dict [("inners", PyVal.lst [PyVal.dict [("a", PyVal.int 1)]]),
          ("inners_defaults", PyVal.int 5)])
      = Except.ok
          (PyVal.dict [("inners", PyVal.lst [PyVal.dict [("a", PyVal.int 1)]])])
    ∧ pyGet (mergeDefaults [("inners", ⟨"inners_defaults"⟩)]
        (PyVal.dict [("inners", PyVal.lst [PyVal.dict [("a", PyVal.int 1)]]),
          ("inners_defaults", PyVal.int 5)])) "inners_defaults" = none
    ∧ pyGet (PyVal.dict [("inners", PyVal.lst [PyVal.dict [("a", PyVal.int 1)]]),
          ("inners_defaults", PyVal.int 5)]) "inners_defaults"
        = some (PyVal.int 5) :=
  ⟨rfl, rfl, rfl⟩

/-- C7 (amended): the merger never raises — every fallible operation of
`_merge_defaults` is guarded, so the exception-aware embedding always
returns `ok`, and it agrees with the total embedding.  Non-mapping
inputs pass through unchanged, and on any shape mismatch (field absent,
defaults absent, field not a list, defaults not a mapping) the merge is
skipped and the field's value passes through untouched; however a
present defaults key is removed whenever the field key is also present,
even when its value is malformed. -/
theorem merger_never_raises (fields : List (String × SupportsDefaults))
    (data : PyVal) (f d : String) (es : List (String × PyVal))
    (hfd : f ≠ d) :
    mergeDefaultsE fields data = Except.ok (mergeDefaults fields data)
    ∧ (data.isDict = false → mergeDefaults fields data = data)
    ∧ (((∀ field_data, dGet es f ≠ some (PyVal.lst field_data)) ∨
        (∀ dd, dGet es d ≠ some (PyVal.dict dd))) →
      pyGet (mergeDefaults [(f, ⟨d⟩)] (PyVal.dict es)) f = dGet es f) := by
  refine ⟨?_, ?_, ?_⟩
  · unfold mergeDefaultsE mergeDefaults
    cases data <;> try rfl
    rename_i es'
    by_cases he : fields.isEmpty <;>
      simp [he, mergeBindingsE_eq, Bind.bind, Except.bind, pure, Except.pure]
  · intro h
    cases data <;> simp_all [PyVal.isDict, mergeDefaults]
  · intro hmis
    unfold mergeDefaults
    simp only [List.isEmpty_cons, Bool.false_eq_true, if_false,
      List.foldl_cons, List.foldl_nil, pyGet]
    unfold mergeBinding
    dsimp only
    split
    · rw [dGet_dPop_ne _ _ _ hfd]
      split
      · exfalso
        rcases hmis with hmis | hmis <;> simp_all
      · rfl
    · rfl

/-- Witness for `merger_never_raises` at a concrete record whose field
value is not a list. -/
theorem merger_never_raises_witness :
    mergeDefaultsE [("inners", ⟨"inners_defaults"⟩)] (PyVal.int 3)
        = Except.ok (mergeDefaults [("inners", ⟨"inners_defaults"⟩)]
            (PyVal.int 3))
    ∧ ((PyVal.int 3).isDict = false →
        mergeDefaults [("inners", ⟨"inners_defaults"⟩)] (PyVal.int 3)
          = PyVal.int 3)
    ∧ (((∀ field_data,
          dGet [("inners", PyVal.int 5), ("inners_defaults", PyVal.dict [])]
            "inners" ≠ some (PyVal.lst field_data)) ∨
        (∀ dd,
          dGet [("inners", PyVal.int 5), ("inners_defaults", PyVal.dict [])]
            "inners_defaults" ≠ some (PyVal.dict dd))) →
      pyGet (mergeDefaults [("inners", ⟨"inners_defaults"⟩)]
          (PyVal.dict [("inners", PyVal.int 5),
            ("inners_defaults", PyVal.dict [])])) "inners"
        = dGet [("inners", PyVal.int 5), ("inners_defaults", PyVal.dict [])]
            "inners") :=
  merger_never_raises [("inners", ⟨"inners_defaults"⟩)] (PyVal.int 3)
    "inners" "inners_defaults"
    [("inners", PyVal.int 5), ("inners_defaults", PyVal.dict [])]
    (by decide)

end Drydantic
